import Mathlib

/-!
Verification development for the deepmax message-orchestration repository.

The Python source is shallowly embedded: pure functions become Lean
functions, database transactions become atomic state transformations on an
explicit record of table rows, and the cooperative per-user locking of the
orchestrator becomes a labelled transition system.  Python runtime errors
(wrong call arity, mismatched bind-parameter types, attribute errors on
coroutine objects) are embedded as explicit error results, because several
call sites in the repository trigger them.
-/

namespace DM

/-! ## Python string primitives

Characters are compared through `Char` equality; the backtick character is
produced with `Char.ofNat` (code point 96).  `pyIsSpace` is the ASCII part
of the whitespace class used by Python `str.strip` and `str.split(None)`.
-/

def backtick : Char := Char.ofNat 96

def pyIsSpace (c : Char) : Bool :=
  c = ' ' || c = '\t' || c = '\n' || c = '\r' || c = Char.ofNat 11 || c = Char.ofNat 12

/-- Python `text.strip()`: remove leading and trailing whitespace. -/
def pyStrip (s : String) : String :=
  String.mk (((s.data.dropWhile pyIsSpace).reverse.dropWhile pyIsSpace).reverse)

/-- Python `text.split(None, 1)`: skip leading whitespace, take the first
whitespace-free token, consume the following whitespace run entirely, and
keep the remainder verbatim (dropped when empty). -/
def pySplitWs1 (s : String) : List String :=
  let cs := s.data.dropWhile pyIsSpace
  if cs.isEmpty then []
  else
    let tok := cs.takeWhile (fun c => !pyIsSpace c)
    let rest := (cs.dropWhile (fun c => !pyIsSpace c)).dropWhile pyIsSpace
    if rest.isEmpty then [String.mk tok] else [String.mk tok, String.mk rest]

/-- Python `text.lower()` (ASCII case folding, which covers command tokens). -/
def pyLower (s : String) : String :=
  String.mk (s.data.map Char.toLower)

/-! ## parse_slash_command (src/deepmax/channels/base.py)

    def parse_slash_command(text):
        text = text.strip()
        if not text.startswith("/"):
            return None
        parts = text.split(None, 1)
        command = parts[0].lower()
        args = parts[1] if len(parts) > 1 else ""
        return command, args
-/

def parse_slash_command (text : String) : Option (String × String) :=
  let text := pyStrip text
  if text.data.head? ≠ some '/' then none
  else
    let parts := pySplitWs1 text
    let command := pyLower (parts.headD (""))
    let args := if parts.length > 1 then parts.getD 1 ("") else ("")
    some (command, args)

/-! ## chunk_markdown (src/deepmax/channels/telegram.py)

The input is split on newline characters exactly as Python
`text.split("\n")` does (`splitNl`), and chunks are joined back with
Python `"\n".join` (`joinNl`).  The loop body of `chunk_markdown` is the
fold of `chunkStep` over the lines; the loop state mirrors the Python
locals `chunks`, `current`, `current_len`, `in_code_block`, `code_fence`.
-/

/-- Python `text.split("\n")` at the character level: `[[]]` on the empty
list, a new empty line after each newline character. -/
def splitNl : List Char → List (List Char)
  | [] => [[]]
  | c :: cs =>
    if c = '\n' then [] :: splitNl cs
    else
      match splitNl cs with
      | [] => [[c]]
      | l :: ls => (c :: l) :: ls

/-- The inverse direction of `splitNl`, used only in proofs. -/
def joinNlChar : List (List Char) → List Char
  | [] => []
  | [l] => l
  | l :: l2 :: ls => l ++ '\n' :: joinNlChar (l2 :: ls)

def pyLines (s : String) : List String :=
  (splitNl s.data).map String.mk

/-- Python `"\n".join(lines)`. -/
def joinNl : List String → String
  | [] => ""
  | [l] => l
  | l :: l2 :: ls => l ++ "\n" ++ joinNl (l2 :: ls)

/-- Does `line.strip()` start with a triple backtick? -/
def tickStart (s : String) : Bool :=
  [backtick, backtick, backtick].isPrefixOf (pyStrip s).data

/-- The fence-tracking block of the loop:

        stripped = line.strip()
        if stripped.startswith("```"):
            if not in_code_block:
                in_code_block = True
                code_fence = "```"
            elif stripped == "```" or stripped.startswith("```"):
                in_code_block = False
                code_fence = ""

(the `elif` condition is a tautology under the outer guard, but it is
translated as written). -/
def fenceToggle (inCodeBlock : Bool) (codeFence : String) (line : String) : Bool × String :=
  if tickStart line then
    if !inCodeBlock then (true, ("```"))
    else if pyStrip line = ("```") || tickStart line then (false, "")
    else (inCodeBlock, codeFence)
  else (inCodeBlock, codeFence)

structure CState where
  chunks : List String
  current : List String
  currentLen : Nat
  inCodeBlock : Bool
  codeFence : String
  deriving Repr, DecidableEq

/-- One iteration of the `for line in lines` loop of `chunk_markdown`. -/
def chunkStep (size : Nat) (st : CState) (line : String) : CState :=
  let lineLen := line.length + 1
  let p := fenceToggle st.inCodeBlock st.codeFence line
  if st.currentLen + lineLen > size && !st.current.isEmpty then
    let chunkText := joinNl st.current
    let chunkText := if p.1 then chunkText ++ ("\n```") else chunkText
    { chunks := st.chunks ++ [chunkText]
      current := (if p.1 then [p.2] else []) ++ [line]
      currentLen := (if p.1 then p.2.length + 1 else 0) + lineLen
      inCodeBlock := p.1
      codeFence := p.2 }
  else
    { st with
      current := st.current ++ [line]
      currentLen := st.currentLen + lineLen
      inCodeBlock := p.1
      codeFence := p.2 }

/-- The function `chunk_markdown(text, size)` from src/deepmax/channels/telegram.py. -/
def chunk_markdown (text : String) (size : Nat) : List String :=
  if text.length ≤ size then [text]
  else
    let st := (pyLines text).foldl (chunkStep size) ⟨[], [], 0, false, ""⟩
    if !st.current.isEmpty then st.chunks ++ [joinNl st.current] else st.chunks

/-! ### Instrumented chunking

`istep` is `chunkStep` with the provenance of every line kept explicit:
each produced chunk records the injected reopening fence line (if any),
the original text lines it carries, and whether a closing fence was
appended.  `rend` erases an annotated chunk back to the string the
original algorithm builds, and `absC` erases the whole instrumented state;
`absC (istep ...) = chunkStep (absC ...)` is proved below, so facts about
annotated chunks transfer to `chunk_markdown`.
-/

structure AChunk where
  reopen : Option String
  body : List String
  closed : Bool
  deriving Repr, DecidableEq

structure IState where
  done : List AChunk
  reopen : Option String
  body : List String
  currentLen : Nat
  inCodeBlock : Bool
  codeFence : String
  deriving Repr, DecidableEq

def rend (c : AChunk) : String :=
  let t := joinNl (c.reopen.toList ++ c.body)
  if c.closed then t ++ ("\n```") else t

def istep (size : Nat) (st : IState) (line : String) : IState :=
  let lineLen := line.length + 1
  let p := fenceToggle st.inCodeBlock st.codeFence line
  if st.currentLen + lineLen > size && !(st.reopen.toList ++ st.body).isEmpty then
    { done := st.done ++ [⟨st.reopen, st.body, p.1⟩]
      reopen := if p.1 then some p.2 else none
      body := [line]
      currentLen := (if p.1 then p.2.length + 1 else 0) + lineLen
      inCodeBlock := p.1
      codeFence := p.2 }
  else
    { st with
      body := st.body ++ [line]
      currentLen := st.currentLen + lineLen
      inCodeBlock := p.1
      codeFence := p.2 }

def absC (st : IState) : CState :=
  ⟨st.done.map rend, st.reopen.toList ++ st.body, st.currentLen, st.inCodeBlock, st.codeFence⟩

/-- The flush after the loop: emit the chunk under construction when the
running `current` list is non-empty. -/
def chunkFinish (st : IState) : List AChunk :=
  if !(st.reopen.toList ++ st.body).isEmpty then st.done ++ [⟨st.reopen, st.body, false⟩]
  else st.done

/-- The initial instrumented loop state. -/
def initI : IState := ⟨[], none, [], 0, false, ""⟩

def chunkAnnotatedLines (lines : List String) (size : Nat) : List AChunk :=
  chunkFinish (lines.foldl (istep size) initI)

def chunkAnnotated (text : String) (size : Nat) : List AChunk :=
  if text.length ≤ size then [⟨none, pyLines text, false⟩]
  else chunkAnnotatedLines (pyLines text) size

/-- The original text lines carried by a list of annotated chunks. -/
def flatBodies (cs : List AChunk) : List String :=
  (cs.map AChunk.body).flatten

/-- Number of fence-marker lines inside a chunk string. -/
def fenceLineCount (chunk : String) : Nat :=
  (pyLines chunk).countP (fun l => tickStart l)

/-- Fence tracker folded over a list of lines, starting from a given
`(in_code_block, code_fence)` pair. -/
def fenceAfter (p : Bool × String) (ls : List String) : Bool × String :=
  ls.foldl (fun q l => fenceToggle q.1 q.2 l) p

/-- Well-formedness of the fence annotations along a chunk list, starting
from tracker state `p`: each emitted chunk is closed exactly when the
tracker - updated through the first line of the following chunk, i.e. the
line whose arrival triggered the break - reports inside a code block; the
following chunk carries a reopening fence exactly when the previous one
was closed; the final chunk is never closed. -/
def annOK (p : Bool × String) : List AChunk → Prop
  | [] => True
  | [c] => c.closed = false
  | c :: c2 :: rest =>
    c.closed = (fenceToggle (fenceAfter p c.body).1 (fenceAfter p c.body).2 (c2.body.headD (""))).1
    ∧ c2.reopen.isSome = c.closed
    ∧ annOK (fenceAfter p c.body) (c2 :: rest)

/-- Mid-fold version of `annOK`, used while reasoning about the chunking
loop: `done` are the chunks emitted so far, `body` the original lines of
the chunk under construction and `r` its pending reopening fence line. -/
def ChainMid (p : Bool × String) : List AChunk → List String → Option String → Prop
  | [], _, r => r = none
  | [c], body, r =>
    c.closed = (fenceToggle (fenceAfter p c.body).1 (fenceAfter p c.body).2 (body.headD (""))).1
    ∧ r.isSome = c.closed
  | c :: c2 :: rest, body, r =>
    c.closed = (fenceToggle (fenceAfter p c.body).1 (fenceAfter p c.body).2 (c2.body.headD (""))).1
    ∧ c2.reopen.isSome = c.closed
    ∧ ChainMid (fenceAfter p c.body) (c2 :: rest) body r

/-- The loop invariant of the instrumented chunking fold. -/
structure MidInv (st : IState) : Prop where
  tracker : (st.inCodeBlock, st.codeFence) = fenceAfter (false, "") (flatBodies st.done ++ st.body)
  fenceStr : st.inCodeBlock = true → st.codeFence = ("```")
  headReopen : (match st.done with | [] => st.reopen | c :: _ => c.reopen) = none
  bodyNe : st.done ≠ [] → st.body ≠ []
  doneBody : ∀ c ∈ st.done, c.body ≠ []
  doneReopen : ∀ c ∈ st.done, c.reopen = none ∨ c.reopen = some ("```")
  reopenCur : st.reopen = none ∨ st.reopen = some ("```")
  chain : ChainMid (false, "") st.done st.body st.reopen

/-! ## AgentManager.get_agent (src/deepmax/agent.py)

    def get_agent(self, model=None):
        model = model or self.default_model
        if model not in self._cache:
            self._cache[model] = self._create_agent(model)
        return self._cache[model]

Agent instances are identified by a creation counter: `_create_agent`
returns a fresh instance on every call, so two results are the identical
object exactly when they carry the same counter value.
-/

structure AMState where
  cache : List (String × Nat)
  nextAgent : Nat
  deriving Repr, DecidableEq

def cacheLookup : List (String × Nat) → String → Option Nat
  | [], _ => none
  | (k, v) :: r, m => if k = m then some v else cacheLookup r m

/-- Python `model = model or self.default_model`: `None` and the empty
string are falsy. -/
def orDefault (defaultModel : String) : Option String → String
  | none => defaultModel
  | some s => if s = "" then defaultModel else s

def get_agent (defaultModel : String) (st : AMState) (model : Option String) :
    Nat × AMState :=
  let m := orDefault defaultModel model
  match cacheLookup st.cache m with
  | some a => (a, st)
  | none => (st.nextAgent, ⟨st.cache ++ [(m, st.nextAgent)], st.nextAgent + 1⟩)

/-- The cache after a whole sequence of `get_agent` calls. -/
def runGetAgents (defaultModel : String) (st : AMState) : List (Option String) → AMState
  | [] => st
  | m :: ms => runGetAgents defaultModel (get_agent defaultModel st m).2 ms

/-! ## Streaming fragment filter (Orchestrator._stream_response loop body)

    if not namespace and token.content and not getattr(token, "tool_call_chunks", None):
        content = token.content
        if isinstance(content, list):
            content = "".join(
                block.get("text", "") if isinstance(block, dict) else str(block)
                for block in content
            )
        if content:
            await channel.send_token(msg.channel_uid, content)

`Block` is modelled from the spec: the agent collaborator is external and
its block format is not part of src/.  Spec 4.3/6: a fragment payload "may
itself be a sequence of typed content blocks"; text-typed blocks are the
dict blocks carrying a text payload (`Block.text`), other typed dict
blocks carry no text field (`Block.other`), and `Block.raw` covers a
non-dict block, which Python renders with `str(block)`.
-/

inductive Block where
  | text (s : String)
  | other (kind : String)
  | raw (s : String)
  deriving Repr, DecidableEq

inductive PyContent where
  | str (s : String)
  | blocks (bs : List Block)
  deriving Repr, DecidableEq

/-- Python `"".join(...)`. -/
def strJoin : List String → String
  | [] => ""
  | s :: r => s ++ strJoin r

/-- The contribution of one block:
`block.get("text", "") if isinstance(block, dict) else str(block)`. -/
def blockPiece : Block → String
  | .text s => s
  | .other _ => ""
  | .raw s => s

/-- A block is text-typed when it actually carries text. -/
def isTextBlock : Block → Bool
  | .text _ => true
  | .other _ => false
  | .raw _ => true

def blockTextVal : Block → String
  | .text s => s
  | .other _ => ""
  | .raw s => s

def extractContent : PyContent → String
  | .str s => s
  | .blocks bs => strJoin (bs.map blockPiece)

/-- Python truthiness of `token.content`. -/
def contentTruthy : PyContent → Bool
  | .str s => s ≠ ""
  | .blocks bs => !bs.isEmpty

/-- One yielded `(namespace, (token, metadata))` item of the agent stream.
`ns` is the subgraph namespace tuple (empty for the top-level agent) and
`toolCallChunks` is the truthiness of `getattr(token, "tool_call_chunks", None)`. -/
structure Fragment where
  ns : List String
  content : PyContent
  toolCallChunks : Bool
  deriving Repr, DecidableEq

/-- What the loop body forwards to `channel.send_token` for one fragment:
`some s` when `send_token` is called with `s`, `none` when the fragment is
dropped. -/
def fragmentOut (f : Fragment) : Option String :=
  if f.ns.isEmpty && contentTruthy f.content && !f.toolCallChunks then
    let c := extractContent f.content
    if c ≠ "" then some c else none
  else none

/-! ## Orchestrator._stream_response control flow (C8)

The turn is embedded as the trace of channel-visible effects it produces.
The agent stream is external: a run of it is the list of fragments the
`async for` consumed, plus whether it then raised (`raises = true` means
an exception escaped the loop at that point; the `except Exception` block
logs and sends the generic notice, and the `finally` block always cancels
and awaits the typing task and then flushes).
-/

inductive Effect where
  | token (s : String)
  | text (s : String)
  | typingCancelled
  | flushed
  | logged
  deriving Repr, DecidableEq

def errNotice : String := "An error occurred processing your message."

def stream_response (frags : List Fragment) (raises : Bool) : List Effect :=
  ((frags.filterMap fragmentOut).map Effect.token)
    ++ (if raises then [Effect.logged, Effect.text errNotice] else [])
    ++ [Effect.typingCancelled, Effect.flushed]

/-! ## Per-user exclusion (Orchestrator._get_lock / handle_message, C9)

    def _get_lock(self, user_name):
        if user_name not in self._user_locks:
            self._user_locks[user_name] = asyncio.Lock()
        return self._user_locks[user_name]

    lock = self._get_lock(user.name)
    async with lock:
        ... parse and dispatch ...

Tasks are identified by numbers; `userOf` names the resolved user of each
task.  A lock that was never created is unlocked, so the lazily populated
lock table is the total map `owner` with `none` meaning free.  `Step` is
the labelled transition relation of the cooperative scheduler: a task
enters its per-user section only when that user's lock is free, and
releases it on exit (`async with` releases unconditionally).
-/

inductive Phase where
  | waiting
  | critical
  | done
  deriving Repr, DecidableEq

structure Sched where
  phase : Nat → Phase
  owner : String → Option Nat

def initSched : Sched := ⟨fun _ => Phase.waiting, fun _ => none⟩

/-- Can task `t` enter its per-user section now? -/
def canAcquire (userOf : Nat → String) (s : Sched) (t : Nat) : Prop :=
  s.phase t = Phase.waiting ∧ s.owner (userOf t) = none

inductive SchedStep (userOf : Nat → String) : Sched → Nat → Sched → Prop
  | acquire (s : Sched) (t : Nat) :
      s.phase t = Phase.waiting → s.owner (userOf t) = none →
      SchedStep userOf s t
        ⟨fun n => if n = t then Phase.critical else s.phase n,
         fun u => if u = userOf t then some t else s.owner u⟩
  | release (s : Sched) (t : Nat) :
      s.phase t = Phase.critical →
      SchedStep userOf s t
        ⟨fun n => if n = t then Phase.done else s.phase n,
         fun u => if u = userOf t then none else s.owner u⟩

inductive SchedReach (userOf : Nat → String) : Sched → Prop
  | init : SchedReach userOf initSched
  | step (s s' : Sched) (t : Nat) :
      SchedReach userOf s → SchedStep userOf s t s' → SchedReach userOf s'

/-! ## Identity and conversation store (src/deepmax/core/identity.py,
src/deepmax/storage/db.py)

The application tables are embedded as explicit row lists; `nextConvId`
models the `SERIAL` id sequence.  Every multi-statement mutation in the
source runs inside `conn.transaction()`, so each store operation below is
one atomic state transformation - an interleaving of concurrent callers is
a sequence of these transformations.  Rows carry `updatedAt` because the
schema trigger `trg_conversations_updated_at` bumps it on every UPDATE;
a `now` argument stands for the database clock `now()`.  New conversation
rows are active because the schema declares `is_active BOOLEAN DEFAULT
true` and the INSERT does not mention the column.
-/

structure UserRow where
  id : Nat
  name : String
  deriving Repr, DecidableEq

structure ChannelIdentityRow where
  userId : Nat
  channel : String
  channelUid : String
  deriving Repr, DecidableEq

structure ConvRow where
  id : Nat
  userId : Nat
  threadId : String
  title : Option String
  model : String
  systemPrompt : Option String
  isActive : Bool
  createdAt : Nat
  updatedAt : Nat
  deriving Repr, DecidableEq

structure Db where
  users : List UserRow
  channelIdentities : List ChannelIdentityRow
  convs : List ConvRow
  nextConvId : Nat
  deriving Repr, DecidableEq

structure User where
  id : Nat
  name : String
  deriving Repr, DecidableEq

/-- IdentityService.resolve: the SELECT-JOIN over `users` and
`channel_identities`; a miss is the ordinary result `none`.  The function
reads the database and returns; it performs no write. -/
def resolve (db : Db) (channel channelUid : String) : Option User :=
  match db.channelIdentities.find? (fun ci => ci.channel = channel && ci.channelUid = channelUid) with
  | none => none
  | some ci => (db.users.find? (fun u => u.id = ci.userId)).map (fun u => ⟨u.id, u.name⟩)

/-- The active rows of one user. -/
def activeConvs (db : Db) (userId : Nat) : List ConvRow :=
  db.convs.filter (fun r => r.userId = userId && r.isActive)

/-- The query `SELECT ... WHERE user_id = $1 AND is_active = true` (fetchrow). -/
def get_active_conversation (db : Db) (userId : Nat) : Option ConvRow :=
  db.convs.find? (fun r => r.userId = userId && r.isActive)

/-- The statement `UPDATE conversations SET is_active = false WHERE user_id = $1 AND
is_active = true` (the schema trigger bumps `updated_at` on updated rows). -/
def deactivateUser (userId now : Nat) (rows : List ConvRow) : List ConvRow :=
  rows.map (fun r =>
    if r.userId = userId && r.isActive then { r with isActive := false, updatedAt := now } else r)

/-- IdentityService.create_conversation: one transaction that deactivates
the current active conversation and inserts a fresh active row.
`threadId` stands for the generated `str(uuid.uuid4())`. -/
def create_conversation (db : Db) (userId : Nat) (threadId model : String)
    (systemPrompt : Option String) (now : Nat) : ConvRow × Db :=
  let row : ConvRow :=
    ⟨db.nextConvId, userId, threadId, none, model, systemPrompt, true, now, now⟩
  (row,
   { db with
     convs := deactivateUser userId now db.convs ++ [row]
     nextConvId := db.nextConvId + 1 })

/-- IdentityService.get_or_create_active_conversation. -/
def get_or_create_active_conversation (db : Db) (userId : Nat) (threadId model : String)
    (systemPrompt : Option String) (now : Nat) : ConvRow × Db :=
  match get_active_conversation db userId with
  | some conv => (conv, db)
  | none => create_conversation db userId threadId model systemPrompt now

/-- IdentityService.switch_conversation: one transaction that checks
ownership, deactivates the current active conversation, and activates the
target (`UPDATE ... SET is_active = true WHERE id = $1`). -/
def switch_conversation (db : Db) (userId convId now : Nat) : Option ConvRow × Db :=
  match db.convs.find? (fun r => r.id = convId && r.userId = userId) with
  | none => (none, db)
  | some _ =>
    let rows :=
      (deactivateUser userId now db.convs).map (fun r =>
        if r.id = convId then { r with isActive := true, updatedAt := now } else r)
    (rows.find? (fun r => r.id = convId), { db with convs := rows })

/-- The statement `UPDATE conversations SET title = $1 WHERE id = $2`. -/
def update_conversation_title (db : Db) (convId : Nat) (title : String) : Db :=
  { db with
    convs := db.convs.map (fun r =>
      if r.id = convId then { r with title := some title } else r) }

/-- The statement `UPDATE conversations SET model = $1 WHERE id = $2`. -/
def update_conversation_model (db : Db) (convId : Nat) (model : String) : Db :=
  { db with
    convs := db.convs.map (fun r =>
      if r.id = convId then { r with model := model } else r) }

/-- The statement `UPDATE conversations SET system_prompt = $1 WHERE id = $2`. -/
def update_conversation_system_prompt (db : Db) (convId : Nat) (systemPrompt : String) : Db :=
  { db with
    convs := db.convs.map (fun r =>
      if r.id = convId then { r with systemPrompt := some systemPrompt } else r) }

/-- One atomic store transaction touching the conversations table; a run
of concurrent clients is an arbitrary list of these. -/
inductive StoreOp where
  | create (userId : Nat) (threadId model : String) (systemPrompt : Option String) (now : Nat)
  | getOrCreate (userId : Nat) (threadId model : String) (systemPrompt : Option String) (now : Nat)
  | switch (userId convId now : Nat)
  | setTitle (convId : Nat) (title : String)
  | setModel (convId : Nat) (model : String)
  | setSystemPrompt (convId : Nat) (systemPrompt : String)

def applyOp (db : Db) : StoreOp → Db
  | .create u tid m sp now => (create_conversation db u tid m sp now).2
  | .getOrCreate u tid m sp now => (get_or_create_active_conversation db u tid m sp now).2
  | .switch u cid now => (switch_conversation db u cid now).2
  | .setTitle cid t => update_conversation_title db cid t
  | .setModel cid m => update_conversation_model db cid m
  | .setSystemPrompt cid sp => update_conversation_system_prompt db cid sp

def applyOps (db : Db) : List StoreOp → Db
  | [] => db
  | op :: ops => applyOps (applyOp db op) ops

/-- Well-formedness of the conversations table: distinct `SERIAL` ids,
ids below the sequence counter, and at most one active conversation per
user (the invariant enforced by the partial unique index
`idx_one_active_conv ON conversations(user_id) WHERE is_active = true`). -/
structure DbWF (db : Db) : Prop where
  nodupIds : (db.convs.map ConvRow.id).Nodup
  idsLt : ∀ r ∈ db.convs, r.id < db.nextConvId
  oneActive : ∀ u, (activeConvs db u).length ≤ 1

/-! ## Python call-level embedding of broken orchestrator call sites
(C2, C3)

The orchestrator calls several IdentityService methods with the wrong
shape: Python only detects this at run time, so the call conventions are
embedded explicitly.  `PyValue` is an argument value, `PyErr` a runtime
exception.
-/

inductive PyValue where
  | int (n : Nat)
  | str (s : String)
  deriving Repr, DecidableEq

inductive PyErr where
  | typeError (msg : String)
  | dataError (msg : String)
  | attributeError (msg : String)
  deriving Repr, DecidableEq

/-- Calling `IdentityService.get_active_conversation` with an explicit
positional argument list: the method signature is `(self, user_id)`, so
anything but a single int argument raises. -/
def get_active_conversation_call (db : Db) (args : List PyValue) :
    Except PyErr (Option ConvRow) :=
  match args with
  | [.int userId] => .ok (get_active_conversation db userId)
  | _ => .error (.typeError
      ("get_active_conversation missing 1 required positional argument: user_id"))

/-- Calling `IdentityService.update_conversation_title(conv_id, title)`:
the UPDATE compares `$2` against the integer `id` column, so binding a
string there makes asyncpg raise a DataError. -/
def update_conversation_title_call (db : Db) (args : List PyValue) :
    Except PyErr Db :=
  match args with
  | [.int convId, .str title] => .ok (update_conversation_title db convId title)
  | [.str _, .str _] => .error (.dataError
      ("invalid input for query argument 2: an integer is required, got str"))
  | _ => .error (.typeError ("update_conversation_title takes 3 positional arguments"))

/-- The `/title` branch of `Orchestrator._handle_command`, exactly as the
source calls the identity service: `get_active_conversation()` with no
argument, then `update_conversation_title(conv.thread_id, args.strip())`
with the string thread id in the integer id position. -/
def handle_title_command (db : Db) (args : String) : Except PyErr (Db × List String) :=
  if pyStrip args = "" then .ok (db, [("Usage: /title <text>")])
  else do
    let conv? ← get_active_conversation_call db []
    match conv? with
    | none => pure (db, [("No active conversation.")])
    | some conv => do
      let db' ← update_conversation_title_call db [.str conv.threadId, .str (pyStrip args)]
      pure (db', [("Title set: ") ++ pyStrip args])

/-! ## handle_message entry (Orchestrator.handle_message, C3)

    if self.shutdown_event.is_set():
        await channel.send_text(..., "Bot is shutting down, please try again later.")
        return
    user = self.identity.resolve(msg.channel, msg.channel_uid)
    if user is None:
        ...
        await channel.send_text(msg.channel_uid, "Access denied.")
        return
    lock = self._get_lock(user.name)

`IdentityService.resolve` is a coroutine function and the call is not
awaited, so the value bound to `user` is a coroutine object: never `None`,
and without a `name` attribute.
-/

structure IncomingMessage where
  channel : String
  channelUid : String
  text : String
  deriving Repr, DecidableEq

/-- The Python value bound to `user` after the resolve line. -/
inductive PyResolveValue where
  | noneVal
  | userVal (u : User)
  | coroutineVal
  deriving Repr, DecidableEq

/-- Attribute access `user.name`. -/
def pyAttrName : PyResolveValue → Except PyErr String
  | .userVal u => .ok u.name
  | .noneVal => .error (.attributeError ("NoneType object has no attribute name"))
  | .coroutineVal => .error (.attributeError ("coroutine object has no attribute name"))

inductive EntryOutcome where
  | replied (replies : List String)
  | raised (e : PyErr)
  | locked (userName : String)
  deriving Repr, DecidableEq

/-- The value of the expression `self.identity.resolve(msg.channel,
msg.channel_uid)` in `handle_message`: the coroutine function is called
but not awaited, so the result is a coroutine object regardless of what
the suspended lookup would return. -/
def resolve_call_unawaited (db : Db) (channel channelUid : String) : PyResolveValue :=
  let _pending := resolve db channel channelUid
  .coroutineVal

/-- The prefix of `handle_message` up to the `_get_lock` call. -/
def handle_message_entry (db : Db) (shutdown : Bool) (msg : IncomingMessage) :
    EntryOutcome :=
  if shutdown then .replied [("Bot is shutting down, please try again later.")]
  else
    let user := resolve_call_unawaited db msg.channel msg.channelUid
    match user with
    | .noneVal => .replied [("Access denied.")]
    | u =>
      match pyAttrName u with
      | .error e => .raised e
      | .ok name => .locked name

/-! ## Concrete fixtures used by counterexamples and witnesses -/

/-- A database with one user (alice, linked to telegram uid 111) whose
active conversation has id 7. -/
def db7 : Db :=
  ⟨[⟨1, ("alice")⟩],
   [⟨1, ("telegram"), ("111")⟩],
   [⟨7, 1, ("thread-7-uuid"), none, ("openai:gpt-4.1"), none, true, 0, 0⟩],
   8⟩

/-- The same database with no active conversation. -/
def db7inactive : Db :=
  ⟨[⟨1, ("alice")⟩],
   [⟨1, ("telegram"), ("111")⟩],
   [⟨7, 1, ("thread-7-uuid"), none, ("openai:gpt-4.1"), none, false, 0, 0⟩],
   8⟩

/-- An empty conversations table. -/
def dbEmpty : Db := ⟨[], [], [], 0⟩

/-- Scheduler fixture: every task belongs to the same user alice. -/
def userOfW : Nat → String := fun _ => ("alice")

/-- The scheduler state after task 0 acquires the alice lock. -/
def sched1 : Sched :=
  ⟨fun n => if n = 0 then Phase.critical else initSched.phase n,
   fun u => if u = userOfW 0 then some 0 else initSched.owner u⟩

/-! # Theorems -/

/-! ## Agent cache (C10) -/

theorem cacheLookup_append_of_some {c : List (String × Nat)} {k : String} {a : Nat}
    (h : cacheLookup c k = some a) (l : List (String × Nat)) :
    cacheLookup (c ++ l) k = some a := by
  induction c with
  | nil => simp [cacheLookup] at h
  | cons p r ih =>
    obtain ⟨k', v⟩ := p
    by_cases hk : k' = k
    · simpa [cacheLookup, hk] using h
    · simp [cacheLookup, hk] at h ⊢
      exact ih h

theorem cacheLookup_append_fresh {c : List (String × Nat)} {k : String}
    (h : cacheLookup c k = none) (v : Nat) :
    cacheLookup (c ++ [(k, v)]) k = some v := by
  induction c with
  | nil => simp [cacheLookup]
  | cons p r ih =>
    obtain ⟨k', v'⟩ := p
    by_cases hk : k' = k
    · simp [cacheLookup, hk] at h
    · simp [cacheLookup, hk] at h ⊢
      exact ih h

theorem get_agent_mono (d : String) (st : AMState) (m : Option String)
    {k : String} {a : Nat} (h : cacheLookup st.cache k = some a) :
    cacheLookup (get_agent d st m).2.cache k = some a := by
  cases hc : cacheLookup st.cache (orDefault d m) with
  | some b => simpa [get_agent, hc] using h
  | none => simpa [get_agent, hc] using cacheLookup_append_of_some h _

theorem runGetAgents_mono (d : String) (ms : List (Option String)) :
    ∀ (st : AMState) {k : String} {a : Nat}, cacheLookup st.cache k = some a →
      cacheLookup (runGetAgents d st ms).cache k = some a := by
  induction ms with
  | nil => intro st k a h; simpa [runGetAgents] using h
  | cons m' ms ih =>
    intro st k a h
    simp only [runGetAgents]
    exact ih _ (get_agent_mono d st m' h)

/-- Claim C10: `AgentManager.get_agent` is idempotent per model string
(the second call returns the identical cached instance and leaves the
cache unchanged), `get_agent(None)` coincides with
`get_agent(default_model)`, and a cached agent is never evicted or
replaced by any later sequence of calls. -/
theorem spec_c10_agent_cache (d : String) (st : AMState) (m : Option String) :
    get_agent d (get_agent d st m).2 m = ((get_agent d st m).1, (get_agent d st m).2)
    ∧ get_agent d st none = get_agent d st (some d)
    ∧ (∀ k a, cacheLookup st.cache k = some a →
        cacheLookup (get_agent d st m).2.cache k = some a)
    ∧ (∀ ms k a, cacheLookup st.cache k = some a →
        cacheLookup (runGetAgents d st ms).cache k = some a) := by
  refine ⟨?_, ?_, ?_, ?_⟩
  · cases hc : cacheLookup st.cache (orDefault d m) with
    | some a => simp [get_agent, hc]
    | none =>
      have h2 : cacheLookup (st.cache ++ [(orDefault d m, st.nextAgent)]) (orDefault d m)
          = some st.nextAgent := cacheLookup_append_fresh hc _
      simp [get_agent, hc, h2]
  · have : orDefault d none = orDefault d (some d) := by
      simp [orDefault]
    simp [get_agent, this]
  · intro k a h
    exact get_agent_mono d st m h
  · intro ms k a h
    exact runGetAgents_mono d ms st h

/-- Witness for C10 at a concrete cache: the entry for model x survives a
call that creates the agent for model y. -/
theorem spec_c10_witness :
    cacheLookup (get_agent ("m") ⟨[(("x"), 0)], 1⟩ (some ("y"))).2.cache ("x") = some 0 :=
  (spec_c10_agent_cache ("m") ⟨[(("x"), 0)], 1⟩ (some ("y"))).2.2.1 ("x") 0 (by decide)

/-! ## Streaming fragment filter (C7) -/

theorem strJoin_filter_textBlocks (bs : List Block) :
    strJoin (bs.map blockPiece) = strJoin ((bs.filter isTextBlock).map blockTextVal) := by
  induction bs with
  | nil => rfl
  | cons b bs ih =>
    cases b with
    | text s => simp [strJoin, isTextBlock, blockPiece, blockTextVal, ih]
    | raw s => simp [strJoin, isTextBlock, blockPiece, blockTextVal, ih]
    | other k =>
      have hb : ("") ++ strJoin (bs.map blockPiece) = strJoin (bs.map blockPiece) := by
        have : ∀ t : String, ("") ++ t = t := fun t => by
          cases t
          rfl
        exact this _
      simp only [List.map_cons, strJoin, blockPiece, List.filter_cons, isTextBlock]
      rw [hb, ih]
      rfl

/-- Claim C7 counterexample: it is not the case that a fragment is
forwarded if and only if it is top-level and not a tool-call fragment -
the top-level non-tool fragment with empty content is dropped. -/
theorem spec_c7_counterexample :
    ¬ (∀ f : Fragment,
        (fragmentOut f).isSome = true ↔ (f.ns = [] ∧ f.toolCallChunks = false)) := by
  intro h
  have h2 := (h ⟨[], PyContent.str (""), false⟩).mpr ⟨rfl, rfl⟩
  exact absurd h2 (by decide)

/-- Claim C7 (amended): a fragment is forwarded exactly when it is
top-level, not a tool-call-construction fragment, its content is truthy
and the extracted text is non-empty; the forwarded value is the extracted
text; and for block-list content the extraction concatenates exactly the
text-typed blocks, in order, dropping the rest. -/
theorem spec_c7_stream_filter (f : Fragment) :
    ((fragmentOut f).isSome = true ↔
      (f.ns = [] ∧ f.toolCallChunks = false ∧ contentTruthy f.content = true
        ∧ extractContent f.content ≠ ""))
    ∧ (∀ s, fragmentOut f = some s → s = extractContent f.content)
    ∧ (∀ bs, extractContent (PyContent.blocks bs)
        = strJoin ((bs.filter isTextBlock).map blockTextVal)) := by
  refine ⟨?_, ?_, ?_⟩
  · unfold fragmentOut
    constructor
    · intro h
      by_cases hcond : f.ns.isEmpty && contentTruthy f.content && !f.toolCallChunks
      · simp only [hcond, if_true] at h
        by_cases hne : extractContent f.content = ""
        · simp [hne] at h
        · simp only [Bool.and_eq_true, Bool.not_eq_true'] at hcond
          exact ⟨List.isEmpty_iff.mp hcond.1.1, hcond.2, hcond.1.2, hne⟩
      · simp [hcond] at h
    · rintro ⟨h1, h2, h3, h4⟩
      have hcond : (f.ns.isEmpty && contentTruthy f.content && !f.toolCallChunks) = true := by
        simp [h1, h2, h3]
      simp [hcond, h4]
  · intro s h
    unfold fragmentOut at h
    by_cases hcond : f.ns.isEmpty && contentTruthy f.content && !f.toolCallChunks
    · simp only [hcond, if_true] at h
      by_cases hne : extractContent f.content = ""
      · simp [hne] at h
      · simp only [hne, if_true, ne_eq, not_false_eq_true, Option.some.injEq] at h
        exact h.symm
    · simp [hcond] at h
  · intro bs
    simpa [extractContent] using strJoin_filter_textBlocks bs

/-- Witness for C7: a concrete top-level text fragment is forwarded. -/
theorem spec_c7_witness :
    (fragmentOut ⟨[], PyContent.blocks [Block.text ("hi"), Block.other ("tool_use")], false⟩).isSome
      = true :=
  (spec_c7_stream_filter
      ⟨[], PyContent.blocks [Block.text ("hi"), Block.other ("tool_use")], false⟩).1.mpr
    ⟨rfl, rfl, by decide, by decide⟩

/-! ## Streaming turn error handling and cleanup (C8) -/

/-- Claim C8: the streaming turn emits the generic error notice exactly
once when the agent stream raises and never otherwise, always logs a
raised failure, calls flush exactly once, and always ends - raising or
not - with cancelling and awaiting the typing side-loop followed by the
flush; it is a total function of the consumed stream, so the failure does
not propagate past the turn. -/
theorem spec_c8_stream_cleanup (frags : List Fragment) (raises : Bool) :
    (stream_response frags raises).countP (fun e => e = Effect.text errNotice)
        = (if raises then 1 else 0)
    ∧ (stream_response frags raises).countP (fun e => e = Effect.flushed) = 1
    ∧ (raises = true → Effect.logged ∈ stream_response frags raises)
    ∧ ∃ pre, stream_response frags raises = pre ++ [Effect.typingCancelled, Effect.flushed] := by
  refine ⟨?_, ?_, ?_, ?_⟩
  · simp only [stream_response, List.countP_append, List.countP_map]
    have h1 : ((frags.filterMap fragmentOut).countP
        ((fun e => decide (e = Effect.text errNotice)) ∘ Effect.token)) = 0 := by
      simp [Function.comp]
    cases raises <;> simp [h1, List.countP_cons, errNotice]
  · simp only [stream_response, List.countP_append, List.countP_map]
    have h1 : ((frags.filterMap fragmentOut).countP
        ((fun e => decide (e = Effect.flushed)) ∘ Effect.token)) = 0 := by
      simp [Function.comp]
    cases raises <;> simp [h1, List.countP_cons]
  · intro h
    subst h
    simp [stream_response]
  · exact ⟨(frags.filterMap fragmentOut).map Effect.token
        ++ (if raises then [Effect.logged, Effect.text errNotice] else []),
      by simp [stream_response]⟩

/-- Witness for C8 on a raising stream with one consumed fragment. -/
theorem spec_c8_witness :
    Effect.logged ∈ stream_response [⟨[], PyContent.str ("hi"), false⟩] true :=
  (spec_c8_stream_cleanup [⟨[], PyContent.str ("hi"), false⟩] true).2.2.1 rfl

/-! ## parse_slash_command (C6) -/

theorem head?_dropWhile_not (p : α → Bool) :
    ∀ (l : List α) {x : α}, (l.dropWhile p).head? = some x → p x = false := by
  intro l
  induction l with
  | nil => intro x h; simp at h
  | cons a l ih =>
    intro x h
    by_cases ha : p a
    · rw [List.dropWhile_cons_of_pos ha] at h
      exact ih h
    · rw [List.dropWhile_cons_of_neg ha] at h
      simp only [List.head?_cons, Option.some.injEq] at h
      subst h
      exact Bool.eq_false_iff.mpr ha

/-- Claim C6 counterexample: on the input from the claim the argument
string has the whole first whitespace run consumed, so it carries no
leading space, contradicting the claimed result. -/
theorem spec_c6_counterexample :
    parse_slash_command ("/Model  openai:gpt-4.1") = some (("/model"), ("openai:gpt-4.1"))
    ∧ (("openai:gpt-4.1") : String) ≠ (" openai:gpt-4.1") := by
  constructor
  · decide
  · decide

theorem dropWhile_eq_self_of_head (p : Char → Bool) {l : List Char} {x : Char}
    (h : l.head? = some x) (hx : p x = false) : l.dropWhile p = l := by
  cases l with
  | nil => simp at h
  | cons a l =>
    simp only [List.head?_cons, Option.some.injEq] at h
    subst h
    exact List.dropWhile_cons_of_neg (by simp [hx])

/-- How `pySplitWs1` decomposes a string whose first character is not
whitespace: a whitespace-free token, the consumed whitespace run, and the
verbatim remainder whose first character (if any) is not whitespace. -/
theorem pySplitWs1_spec (s : String) {c0 : Char} (hhead : s.data.head? = some c0)
    (hc0 : pyIsSpace c0 = false) :
    ∃ tok ws rest : List Char,
      s.data = tok ++ ws ++ rest
      ∧ tok.head? = some c0
      ∧ (∀ c ∈ tok, pyIsSpace c = false)
      ∧ (∀ c ∈ ws, pyIsSpace c = true)
      ∧ (∀ c, rest.head? = some c → pyIsSpace c = false)
      ∧ pySplitWs1 s
          = (if rest.isEmpty then [String.mk tok] else [String.mk tok, String.mk rest]) := by
  obtain ⟨cs', hcs⟩ : ∃ cs', s.data = c0 :: cs' := by
    cases hl : s.data with
    | nil => rw [hl] at hhead; simp at hhead
    | cons a l =>
      rw [hl] at hhead
      simp only [List.head?_cons, Option.some.injEq] at hhead
      exact ⟨l, by rw [hhead]⟩
  refine ⟨s.data.takeWhile (fun c => !pyIsSpace c),
      (s.data.dropWhile (fun c => !pyIsSpace c)).takeWhile pyIsSpace,
      (s.data.dropWhile (fun c => !pyIsSpace c)).dropWhile pyIsSpace,
      ?_, ?_, ?_, ?_, ?_, ?_⟩
  · rw [List.append_assoc, List.takeWhile_append_dropWhile, List.takeWhile_append_dropWhile]
  · rw [hcs, List.takeWhile_cons_of_pos (by simp [hc0])]
    rfl
  · intro c hc
    simpa using List.mem_takeWhile_imp hc
  · intro c hc
    exact List.mem_takeWhile_imp hc
  · intro c hc
    exact head?_dropWhile_not pyIsSpace _ hc
  · simp only [pySplitWs1]
    rw [dropWhile_eq_self_of_head pyIsSpace hhead hc0]
    rw [if_neg (by simp [hcs])]

/-- Claim C6 (amended): `parse_slash_command` depends only on the trimmed
message, returns `none` whenever the trimmed text does not start with a
slash, and otherwise splits the trimmed text as a whitespace-free command
token (lower-cased), a whitespace run that is consumed entirely, and the
verbatim remainder as the argument string - so `"/Model  openai:gpt-4.1"`
parses to `("/model", "openai:gpt-4.1")` with no leading space on the
argument, `"  /new"` to `("/new", "")`, and `"hello"` and `""` to none. -/
theorem spec_c6_parse_slash_command :
    (∀ t1 t2 : String, pyStrip t1 = pyStrip t2 →
        parse_slash_command t1 = parse_slash_command t2)
    ∧ (∀ text : String, (pyStrip text).data.head? ≠ some '/' →
        parse_slash_command text = none)
    ∧ (∀ text cmd args, parse_slash_command text = some (cmd, args) →
        ∃ tok ws rest : List Char,
          (pyStrip text).data = tok ++ ws ++ rest
          ∧ tok.head? = some '/'
          ∧ (∀ c ∈ tok, pyIsSpace c = false)
          ∧ (∀ c ∈ ws, pyIsSpace c = true)
          ∧ (∀ c, rest.head? = some c → pyIsSpace c = false)
          ∧ cmd = pyLower (String.mk tok) ∧ args = String.mk rest)
    ∧ parse_slash_command ("/Model  openai:gpt-4.1") = some (("/model"), ("openai:gpt-4.1"))
    ∧ parse_slash_command ("  /new") = some (("/new"), (""))
    ∧ parse_slash_command ("hello") = none
    ∧ parse_slash_command ("") = none := by
  refine ⟨?_, ?_, ?_, by decide, by decide, by decide, by decide⟩
  · intro t1 t2 h
    simp only [parse_slash_command, h]
  · intro text h
    simp only [parse_slash_command, if_pos h]
  · intro text cmd args h
    by_cases hslash : (pyStrip text).data.head? = some '/'
    · obtain ⟨tok, ws, rest, hdecomp, hheadTok, htokmem, hwsmem, hresthead, hsplitval⟩ :=
        pySplitWs1_spec (pyStrip text) hslash (by decide)
      have hparse : parse_slash_command text
          = some (pyLower (String.mk tok), if rest.isEmpty then ("") else String.mk rest) := by
        simp only [parse_slash_command]
        rw [if_neg (by simp [hslash])]
        rw [hsplitval]
        by_cases hr : rest.isEmpty
        · rw [if_pos hr, if_pos hr]
          rfl
        · rw [if_neg hr, if_neg hr]
          rfl
      rw [hparse] at h
      simp only [Option.some.injEq, Prod.mk.injEq] at h
      by_cases hr : rest.isEmpty
      · have hrestnil : rest = [] := List.isEmpty_iff.mp hr
        subst hrestnil
        refine ⟨tok, ws, [], hdecomp, hheadTok, htokmem, hwsmem, ?_, h.1.symm, ?_⟩
        · intro c hc
          simp at hc
        · rw [← h.2, if_pos hr]
      · refine ⟨tok, ws, rest, hdecomp, hheadTok, htokmem, hwsmem, hresthead, h.1.symm, ?_⟩
        rw [← h.2, if_neg hr]
    · simp only [parse_slash_command, if_pos hslash] at h
      exact Option.noConfusion h

/-- Witness for C6: the no-slash clause applied at the concrete input hello. -/
theorem spec_c6_witness : parse_slash_command ("hello") = none :=
  spec_c6_parse_slash_command.2.1 ("hello") (by decide)

/-! ## Per-user exclusion (C9) -/

/-- Lock-table soundness: a task inside its per-user section holds the
lock of its user. -/
def SchedInv (userOf : Nat → String) (s : Sched) : Prop :=
  ∀ t, s.phase t = Phase.critical → s.owner (userOf t) = some t

theorem schedInv_step {userOf : Nat → String} {s s' : Sched} {t : Nat}
    (hinv : SchedInv userOf s) (hstep : SchedStep userOf s t s') :
    SchedInv userOf s' := by
  cases hstep with
  | acquire hw hf =>
    intro t' hc
    dsimp only at hc ⊢
    by_cases h : t' = t
    · subst h
      simp
    · rw [if_neg h] at hc
      have hv := hinv t' hc
      by_cases hu : userOf t' = userOf t
      · rw [hu] at hv
        rw [hv] at hf
        exact Option.noConfusion hf
      · rw [if_neg hu]
        exact hv
  | release hc2 =>
    intro t' hc
    dsimp only at hc ⊢
    by_cases h : t' = t
    · subst h
      rw [if_pos rfl] at hc
      exact absurd hc (by decide)
    · rw [if_neg h] at hc
      have hv := hinv t' hc
      by_cases hu : userOf t' = userOf t
      · exfalso
        have hv2 := hinv t hc2
        rw [hu] at hv
        rw [hv2] at hv
        exact h (Option.some.inj hv).symm
      · rw [if_neg hu]
        exact hv

theorem schedInv_reach {userOf : Nat → String} {s : Sched}
    (h : SchedReach userOf s) : SchedInv userOf s := by
  induction h with
  | init => intro t hc; simp [initSched] at hc
  | step s s' t _ hstep ih => exact schedInv_step ih hstep

/-- Claim C9: in every reachable scheduler state, at most one task per
resolved user is inside its section; a second task of the same user
cannot acquire while the first is inside (it waits); and a step taken by
a task of a different user neither enables nor disables an acquisition -
turns of distinct users never block each other. -/
theorem spec_c9_per_user_exclusion (userOf : Nat → String) (s : Sched)
    (h : SchedReach userOf s) :
    (∀ t1 t2, s.phase t1 = Phase.critical → s.phase t2 = Phase.critical →
        userOf t1 = userOf t2 → t1 = t2)
    ∧ (∀ t t', t ≠ t' → userOf t = userOf t' → s.phase t' = Phase.critical →
        ¬ canAcquire userOf s t)
    ∧ (∀ t t2 s', userOf t ≠ userOf t2 → SchedStep userOf s t2 s' →
        (canAcquire userOf s t ↔ canAcquire userOf s' t)) := by
  have hinv := schedInv_reach h
  refine ⟨?_, ?_, ?_⟩
  · intro t1 t2 h1 h2 hu
    have v1 := hinv t1 h1
    have v2 := hinv t2 h2
    rw [hu] at v1
    rw [v1] at v2
    exact Option.some.inj v2
  · intro t t' hne hu hc hacq
    have hv := hinv t' hc
    rw [← hu] at hv
    rw [hacq.2] at hv
    exact Option.noConfusion hv
  · intro t t2 s' hu hstep
    have hne : t ≠ t2 := fun he => hu (by rw [he])
    cases hstep with
    | acquire hw hf =>
      simp [canAcquire, hne, hu]
    | release hc2 =>
      simp [canAcquire, hne, hu]

/-- Witness for C9: with every task belonging to alice and task 0 inside
its section, task 1 cannot acquire. -/
theorem spec_c9_witness : ¬ canAcquire userOfW sched1 1 :=
  (spec_c9_per_user_exclusion userOfW sched1
      (SchedReach.step initSched sched1 0 SchedReach.init
        (SchedStep.acquire initSched 0 rfl rfl))).2.1
    1 0 (by decide) rfl rfl

/-! ## Single active conversation per user (C1) -/

theorem map_id_of_preserve {f : ConvRow → ConvRow} (hf : ∀ r, (f r).id = r.id)
    (rows : List ConvRow) : (rows.map f).map ConvRow.id = rows.map ConvRow.id := by
  rw [List.map_map]
  exact List.map_congr_left (fun r _ => hf r)

theorem deactivateUser_id (u now : Nat) (r : ConvRow) :
    (if r.userId = u && r.isActive then { r with isActive := false, updatedAt := now } else r).id
      = r.id := by
  by_cases h : r.userId = u && r.isActive <;> simp [h]

theorem deactivateUser_map_id (u now : Nat) (rows : List ConvRow) :
    (deactivateUser u now rows).map ConvRow.id = rows.map ConvRow.id := by
  simp only [deactivateUser]
  exact map_id_of_preserve (deactivateUser_id u now) rows

theorem countP_deactivate_self (u now : Nat) (rows : List ConvRow) :
    (deactivateUser u now rows).countP (fun r => r.userId = u && r.isActive) = 0 := by
  apply List.countP_eq_zero.mpr
  intro r hr
  obtain ⟨r0, _, rfl⟩ := List.mem_map.mp hr
  by_cases h : r0.userId = u && r0.isActive
  · simp [h]
  · simpa [h] using h

theorem countP_id_le_one {rows : List ConvRow}
    (hnd : (rows.map ConvRow.id).Nodup) (cid : Nat) :
    rows.countP (fun r => r.id = cid) ≤ 1 := by
  have h1 : rows.countP (fun r => r.id = cid) = (rows.map ConvRow.id).count cid := by
    rw [List.count, List.countP_map]
    apply List.countP_congr
    intro r _
    simp [Function.comp]
  rw [h1]
  exact List.nodup_iff_count_le_one.mp hnd cid

/-- The unique row carrying a given id, given that the table has nodup ids. -/
theorem row_eq_of_same_id {rows : List ConvRow} (hnd : (rows.map ConvRow.id).Nodup)
    {r1 r2 : ConvRow} (h1 : r1 ∈ rows) (h2 : r2 ∈ rows) (h : r1.id = r2.id) : r1 = r2 :=
  List.inj_on_of_nodup_map hnd h1 h2 h

theorem activeConvs_create (db : Db) (u : Nat) (tid m : String) (sp : Option String) (now : Nat) :
    activeConvs (create_conversation db u tid m sp now).2 u
      = [(create_conversation db u tid m sp now).1] := by
  simp only [create_conversation, activeConvs]
  rw [List.filter_append]
  have h1 : (deactivateUser u now db.convs).filter (fun r => r.userId = u && r.isActive) = [] := by
    apply List.filter_eq_nil_iff.mpr
    intro r hr
    obtain ⟨r0, _, rfl⟩ := List.mem_map.mp hr
    by_cases h : r0.userId = u && r0.isActive
    · simp [h]
    · simpa [h] using h
  rw [h1]
  simp

theorem create_countP (db : Db) (u : Nat) (tid m : String) (sp : Option String) (now : Nat)
    (hwf : DbWF db) (v : Nat) :
    ((create_conversation db u tid m sp now).2.convs.countP
      (fun r => r.userId = v && r.isActive)) ≤ 1 := by
  simp only [create_conversation]
  rw [List.countP_append]
  by_cases hv : v = u
  · subst hv
    rw [countP_deactivate_self]
    simp
  · have h1 : (deactivateUser u now db.convs).countP (fun r => r.userId = v && r.isActive)
        ≤ db.convs.countP (fun r => r.userId = v && r.isActive) := by
      simp only [deactivateUser]
      rw [List.countP_map]
      apply List.countP_mono_left
      intro r _ hp
      simp only [Function.comp] at hp
      by_cases h : r.userId = u && r.isActive
      · simp [h] at hp
      · simpa [h] using hp
    have h2 : List.countP (fun r => r.userId = v && r.isActive)
        [(⟨db.nextConvId, u, tid, none, m, sp, true, now, now⟩ : ConvRow)] = 0 := by
      simp [Ne.symm hv]
    rw [h2]
    have h3 := hwf.oneActive v
    rw [activeConvs, ← List.countP_eq_length_filter] at h3
    omega

theorem dbWF_create (db : Db) (u : Nat) (tid m : String) (sp : Option String) (now : Nat)
    (hwf : DbWF db) : DbWF (create_conversation db u tid m sp now).2 := by
  refine ⟨?_, ?_, ?_⟩
  · simp only [create_conversation, List.map_append]
    rw [deactivateUser_map_id]
    rw [List.nodup_append]
    refine ⟨hwf.nodupIds, by simp, ?_⟩
    intro a ha hb
    simp only [List.map_cons, List.map_nil, List.mem_singleton] at hb
    subst hb
    obtain ⟨r, hr, hre⟩ := List.mem_map.mp ha
    exact absurd hre (Nat.ne_of_lt (hwf.idsLt r hr))
  · intro r hr
    simp only [create_conversation] at hr ⊢
    rw [List.mem_append] at hr
    cases hr with
    | inl h =>
      obtain ⟨r0, hr0, rfl⟩ := List.mem_map.mp h
      have := hwf.idsLt r0 hr0
      have hid : (if r0.userId = u && r0.isActive
          then { r0 with isActive := false, updatedAt := now } else r0).id = r0.id :=
        deactivateUser_id u now r0
      omega
    | inr h =>
      simp only [List.mem_singleton] at h
      subst h
      simp
  · intro v
    rw [activeConvs, ← List.countP_eq_length_filter]
    exact create_countP db u tid m sp now hwf v

/-- A row of the deactivated table is never active-for-the-caller. -/
theorem deactivate_not_active_self {u now : Nat} {rows : List ConvRow} {r : ConvRow}
    (hr : r ∈ deactivateUser u now rows) :
    (decide (r.userId = u) && r.isActive) = false := by
  obtain ⟨r0, _, rfl⟩ := List.mem_map.mp hr
  by_cases h : r0.userId = u && r0.isActive
  · simp [h]
  · simp only [if_neg h]
    exact Bool.eq_false_iff.mpr h

/-- Deactivation can only lower the number of active rows of any user. -/
theorem countP_deactivate_le (u now v : Nat) (rows : List ConvRow) :
    (deactivateUser u now rows).countP (fun r => r.userId = v && r.isActive)
      ≤ rows.countP (fun r => r.userId = v && r.isActive) := by
  simp only [deactivateUser]
  rw [List.countP_map]
  apply List.countP_mono_left
  intro r _ hp
  simp only [Function.comp] at hp
  by_cases h : r.userId = u && r.isActive
  · simp [h] at hp
  · simpa [h] using hp

/-- Deactivation preserves ids and owners, so ownership of a given id
transfers to the deactivated table. -/
theorem deact_userId_of_id {u now cid : Nat} {rows : List ConvRow}
    (hcid : ∀ r ∈ rows, r.id = cid → r.userId = u) {r : ConvRow}
    (hr : r ∈ deactivateUser u now rows) (hid : r.id = cid) : r.userId = u := by
  obtain ⟨r0, hr0, rfl⟩ := List.mem_map.mp hr
  by_cases h : r0.userId = u && r0.isActive
  · simp only [if_pos h] at hid ⊢
    exact hcid r0 hr0 hid
  · simp only [if_neg h] at hid ⊢
    exact hcid r0 hr0 hid

/-- A per-row update that does not touch ids, owners or the active flag
(the single-field UPDATEs for title, model and system prompt) preserves
table well-formedness. -/
theorem dbWF_mapRows {db : Db} (hwf : DbWF db) {f : ConvRow → ConvRow}
    (hid : ∀ r, (f r).id = r.id) (huser : ∀ r, (f r).userId = r.userId)
    (hact : ∀ r, (f r).isActive = r.isActive) :
    DbWF { db with convs := db.convs.map f } := by
  refine ⟨?_, ?_, ?_⟩
  · show ((db.convs.map f).map ConvRow.id).Nodup
    rw [map_id_of_preserve hid]
    exact hwf.nodupIds
  · intro r hr
    obtain ⟨r0, hr0, rfl⟩ := List.mem_map.mp hr
    show (f r0).id < db.nextConvId
    rw [hid]
    exact hwf.idsLt r0 hr0
  · intro v
    rw [activeConvs, ← List.countP_eq_length_filter]
    show ((db.convs.map f).countP fun r => r.userId = v && r.isActive) ≤ 1
    rw [List.countP_map]
    have heq : db.convs.countP ((fun r => r.userId = v && r.isActive) ∘ f)
        = db.convs.countP (fun r => r.userId = v && r.isActive) := by
      apply List.countP_congr
      intro r _
      simp [Function.comp, hid, huser, hact]
    rw [heq]
    have h3 := hwf.oneActive v
    rw [activeConvs, ← List.countP_eq_length_filter] at h3
    exact h3

/-- The table produced by the switch transaction (deactivate the active
rows of the caller, then activate the target id) is well-formed, provided
every row carrying the target id belongs to the caller. -/
theorem dbWF_switch_table (db : Db) (u cid now : Nat) (hwf : DbWF db)
    (hcid : ∀ r ∈ db.convs, r.id = cid → r.userId = u) :
    DbWF { db with convs := ((deactivateUser u now db.convs).map
        (fun r => if r.id = cid then { r with isActive := true, updatedAt := now } else r)) } := by
  refine ⟨?_, ?_, ?_⟩
  · show (((deactivateUser u now db.convs).map _).map ConvRow.id).Nodup
    rw [map_id_of_preserve (fun r => by by_cases hid : r.id = cid <;> simp [hid])]
    rw [deactivateUser_map_id]
    exact hwf.nodupIds
  · intro r hr
    obtain ⟨r0, hr0mem, rfl⟩ := List.mem_map.mp hr
    obtain ⟨r1, hr1mem, hr1eq⟩ := List.mem_map.mp hr0mem
    have h1 : (if r0.id = cid then ({ r0 with isActive := true, updatedAt := now } : ConvRow)
        else r0).id = r0.id := by
      by_cases hid : r0.id = cid <;> simp [hid]
    show _ < db.nextConvId
    rw [h1, ← hr1eq, deactivateUser_id]
    exact hwf.idsLt r1 hr1mem
  · intro v
    rw [activeConvs, ← List.countP_eq_length_filter]
    show List.countP _ ((deactivateUser u now db.convs).map _) ≤ 1
    rw [List.countP_map]
    by_cases hv : v = u
    · rw [hv]
      have hmono : (deactivateUser u now db.convs).countP
          ((fun r => r.userId = u && r.isActive)
            ∘ fun r => if r.id = cid then { r with isActive := true, updatedAt := now } else r)
          ≤ (deactivateUser u now db.convs).countP (fun r => r.id = cid) := by
        apply List.countP_mono_left
        intro r hrm hp
        simp only [Function.comp] at hp
        by_cases hid : r.id = cid
        · simp [hid]
        · simp only [if_neg hid] at hp
          have hfalse := deactivate_not_active_self hrm
          rw [hfalse] at hp
          exact absurd hp (by simp)
      have hle : (deactivateUser u now db.convs).countP (fun r => r.id = cid) ≤ 1 := by
        apply countP_id_le_one
        rw [deactivateUser_map_id]
        exact hwf.nodupIds
      omega
    · have hmono : (deactivateUser u now db.convs).countP
          ((fun r => r.userId = v && r.isActive)
            ∘ fun r => if r.id = cid then { r with isActive := true, updatedAt := now } else r)
          ≤ (deactivateUser u now db.convs).countP (fun r => r.userId = v && r.isActive) := by
        apply List.countP_mono_left
        intro r hrm hp
        simp only [Function.comp] at hp
        by_cases hid : r.id = cid
        · exfalso
          have hru : r.userId = u := deact_userId_of_id hcid hrm hid
          simp [hid] at hp
          exact hv (hp.symm.trans hru)
        · simp only [if_neg hid] at hp
          exact hp
      have hstep2 := countP_deactivate_le u now v db.convs
      have h3 := hwf.oneActive v
      rw [activeConvs, ← List.countP_eq_length_filter] at h3
      omega

/-- What `switch_conversation` guarantees when it finds the target:
the returned row is the target id, activated and owned by the caller, it
is the only possibly-active row of the caller, and well-formedness of the
table is preserved. -/
theorem switch_some (db : Db) (u cid now : Nat) (hwf : DbWF db)
    {c : ConvRow} {db' : Db} (h : switch_conversation db u cid now = (some c, db')) :
    c.id = cid ∧ c.userId = u ∧ c.isActive = true
    ∧ (∀ r ∈ db'.convs, r.userId = u → r.isActive = true → r.id = cid)
    ∧ DbWF db' := by
  cases hf : db.convs.find? (fun r => r.id = cid && r.userId = u) with
  | none =>
    simp only [switch_conversation, hf, Prod.mk.injEq] at h
    exact absurd h.1 (by simp)
  | some tgt =>
    simp only [switch_conversation, hf, Prod.mk.injEq] at h
    obtain ⟨hc, hdb⟩ := h
    have htgt := List.find?_some hf
    have htgtmem := List.mem_of_find?_eq_some hf
    simp only [Bool.and_eq_true, decide_eq_true_eq] at htgt
    have hcid : ∀ r ∈ db.convs, r.id = cid → r.userId = u := by
      intro r hr hid
      have heq : r = tgt := row_eq_of_same_id hwf.nodupIds hr htgtmem (by rw [hid, htgt.1])
      rw [heq]
      exact htgt.2
    have hcprop := List.find?_some hc
    have hcmem := List.mem_of_find?_eq_some hc
    have hcidc : c.id = cid := by simpa using hcprop
    obtain ⟨r0, hr0mem, hr0eq⟩ := List.mem_map.mp hcmem
    have hid0 : r0.id = cid := by
      by_cases hid : r0.id = cid
      · exact hid
      · rw [← hr0eq, if_neg hid] at hcidc
        exact absurd hcidc hid
    have hu0 : r0.userId = u := deact_userId_of_id hcid hr0mem hid0
    refine ⟨hcidc, ?_, ?_, ?_, ?_⟩
    · rw [← hr0eq, if_pos hid0]
      exact hu0
    · rw [← hr0eq, if_pos hid0]
    · -- the only possibly-active row of u carries id cid
      intro r hr hu hact
      rw [← hdb] at hr
      obtain ⟨s0, hs0mem, hs0eq⟩ := List.mem_map.mp hr
      by_cases hid : s0.id = cid
      · rw [← hs0eq, if_pos hid]
        exact hid
      · rw [← hs0eq, if_neg hid] at hu hact
        have hfalse := deactivate_not_active_self hs0mem
        rw [hu, hact] at hfalse
        simp at hfalse
    · rw [← hdb]
      exact dbWF_switch_table db u cid now hwf hcid

theorem dbWF_applyOp (db : Db) (op : StoreOp) (hwf : DbWF db) : DbWF (applyOp db op) := by
  cases op with
  | create u tid m sp now => exact dbWF_create db u tid m sp now hwf
  | getOrCreate u tid m sp now =>
    show DbWF (get_or_create_active_conversation db u tid m sp now).2
    cases hga : get_active_conversation db u with
    | some conv => simpa [get_or_create_active_conversation, hga] using hwf
    | none =>
      simpa [get_or_create_active_conversation, hga] using dbWF_create db u tid m sp now hwf
  | switch u cid now =>
    show DbWF (switch_conversation db u cid now).2
    cases hf : db.convs.find? (fun r => r.id = cid && r.userId = u) with
    | none => simpa [switch_conversation, hf] using hwf
    | some tgt =>
      have htgt := List.find?_some hf
      have htgtmem := List.mem_of_find?_eq_some hf
      simp only [Bool.and_eq_true, decide_eq_true_eq] at htgt
      have hcid : ∀ r ∈ db.convs, r.id = cid → r.userId = u := by
        intro r hr hid
        have heq : r = tgt := row_eq_of_same_id hwf.nodupIds hr htgtmem (by rw [hid, htgt.1])
        rw [heq]
        exact htgt.2
      simpa [switch_conversation, hf] using dbWF_switch_table db u cid now hwf hcid
  | setTitle cid t =>
    exact dbWF_mapRows hwf (fun r => by by_cases h : r.id = cid <;> simp [h])
      (fun r => by by_cases h : r.id = cid <;> simp [h])
      (fun r => by by_cases h : r.id = cid <;> simp [h])
  | setModel cid m =>
    exact dbWF_mapRows hwf (fun r => by by_cases h : r.id = cid <;> simp [h])
      (fun r => by by_cases h : r.id = cid <;> simp [h])
      (fun r => by by_cases h : r.id = cid <;> simp [h])
  | setSystemPrompt cid sp =>
    exact dbWF_mapRows hwf (fun r => by by_cases h : r.id = cid <;> simp [h])
      (fun r => by by_cases h : r.id = cid <;> simp [h])
      (fun r => by by_cases h : r.id = cid <;> simp [h])

theorem dbWF_applyOps : ∀ (ops : List StoreOp) (db : Db), DbWF db → DbWF (applyOps db ops)
  | [], _, h => h
  | op :: ops, db, h => dbWF_applyOps ops (applyOp db op) (dbWF_applyOp db op h)

/-- Claim C1: starting from a well-formed table, after any sequence of
atomic store transactions - in particular any interleaving of concurrent
/new and /switch calls - every user has at most one conversation with
is_active = true; and each activating transition deactivates the previous
active conversation in the same atomic unit: right after
create_conversation the new row is the only active row of its user, and
right after a successful switch_conversation the target is activated,
owned by the caller, and is the only possibly-active row of the caller. -/
theorem spec_c1_single_active_conversation :
    (∀ db ops, DbWF db → ∀ u, (activeConvs (applyOps db ops) u).length ≤ 1)
    ∧ (∀ db u tid m sp now, DbWF db →
        activeConvs (create_conversation db u tid m sp now).2 u
          = [(create_conversation db u tid m sp now).1]
        ∧ (create_conversation db u tid m sp now).1.isActive = true)
    ∧ (∀ db u cid now c db', DbWF db → switch_conversation db u cid now = (some c, db') →
        c.id = cid ∧ c.userId = u ∧ c.isActive = true
        ∧ ∀ r ∈ db'.convs, r.userId = u → r.isActive = true → r.id = cid) := by
  refine ⟨?_, ?_, ?_⟩
  · intro db ops hwf u
    exact (dbWF_applyOps ops db hwf).oneActive u
  · intro db u tid m sp now hwf
    exact ⟨activeConvs_create db u tid m sp now, rfl⟩
  · intro db u cid now c db' hwf hsw
    have h := switch_some db u cid now hwf hsw
    exact ⟨h.1, h.2.1, h.2.2.1, h.2.2.2.1⟩

/-- Witness for C1: two consecutive /new transactions for user 1 starting
from the empty table leave at most one active conversation. -/
theorem spec_c1_witness :
    (activeConvs (applyOps dbEmpty
        [StoreOp.create 1 ("t1") ("m") none 0, StoreOp.create 1 ("t2") ("m") none 1]) 1).length
      ≤ 1 :=
  (spec_c1_single_active_conversation.1 dbEmpty
      [StoreOp.create 1 ("t1") ("m") none 0, StoreOp.create 1 ("t2") ("m") none 1]
      ⟨by simp [dbEmpty], by simp [dbEmpty], fun u => by simp [activeConvs, dbEmpty]⟩) 1

/-! ## The /title command (C2) -/

/-- Claim C2 is contradicted by the code: with user 1 holding the active
conversation of id 7, the inbound text parses as the /title command with
argument My trip, the active conversation is id 7, yet the handler raises
a TypeError - the orchestrator calls get_active_conversation with no user
argument - so conversation 7 never gets the title and no reply is sent;
with no active conversation the handler raises the same TypeError instead
of replying No active conversation; and even with the lookup repaired the
next call would bind the string thread id where the integer conversation
id is required, which asyncpg rejects. -/
theorem spec_c2_title_command_bug :
    parse_slash_command ("/title My trip") = some (("/title"), ("My trip"))
    ∧ get_active_conversation db7 1
        = some ⟨7, 1, ("thread-7-uuid"), none, ("openai:gpt-4.1"), none, true, 0, 0⟩
    ∧ handle_title_command db7 ("My trip")
        = .error (.typeError
            ("get_active_conversation missing 1 required positional argument: user_id"))
    ∧ handle_title_command db7inactive ("My trip")
        = .error (.typeError
            ("get_active_conversation missing 1 required positional argument: user_id"))
    ∧ update_conversation_title_call db7 [.str ("thread-7-uuid"), .str ("My trip")]
        = .error (.dataError
            ("invalid input for query argument 2: an integer is required, got str")) := by
  refine ⟨by decide, by decide, by rfl, by rfl, by rfl⟩

/-! ## Access control on unresolved identities (C3) -/

/-- Claim C3 is contradicted by the code: for a sender unknown to the
identity tables, `resolve` is indeed a pure lookup whose miss is the
ordinary result none, but `handle_message` never sees that result - the
call is not awaited, so the coroutine object is never None, the denial
branch is unreachable, and the handler raises an AttributeError at
user.name instead of replying Access denied. -/
theorem spec_c3_access_denied_bug :
    resolve db7 ("telegram") ("999") = none
    ∧ handle_message_entry db7 false ⟨("telegram"), ("999"), ("hi")⟩
        = .raised (.attributeError ("coroutine object has no attribute name"))
    ∧ handle_message_entry db7 false ⟨("telegram"), ("999"), ("hi")⟩
        ≠ .replied [("Access denied.")]
    ∧ resolve db7 ("telegram") ("111") = some ⟨1, ("alice")⟩ := by
  refine ⟨by decide, by decide, by decide, by decide⟩

/-! ## Chunking round-trip (C4) -/

theorem splitNl_ne_nil (cs : List Char) : splitNl cs ≠ [] := by
  cases cs with
  | nil => simp [splitNl]
  | cons c cs =>
    by_cases h : c = '\n'
    · simp [splitNl, h]
    · simp only [splitNl, if_neg h]
      cases splitNl cs <;> simp

theorem joinNlChar_splitNl (cs : List Char) : joinNlChar (splitNl cs) = cs := by
  induction cs with
  | nil => rfl
  | cons c cs ih =>
    by_cases h : c = '\n'
    · subst h
      rw [splitNl]
      rw [if_pos rfl]
      cases hs : splitNl cs with
      | nil => exact absurd hs (splitNl_ne_nil cs)
      | cons l ls =>
        show [] ++ '\n' :: joinNlChar (l :: ls) = '\n' :: cs
        have ih2 := ih
        rw [hs] at ih2
        rw [ih2]
        rfl
    · rw [splitNl, if_neg h]
      cases hs : splitNl cs with
      | nil => exact absurd hs (splitNl_ne_nil cs)
      | cons l ls =>
        cases ls with
        | nil =>
          show c :: l = c :: cs
          have := ih
          rw [hs] at this
          show c :: l = c :: cs
          rw [show l = cs from this]
        | cons l2 ls2 =>
          show (c :: l) ++ '\n' :: joinNlChar (l2 :: ls2) = c :: cs
          have := ih
          rw [hs] at this
          show c :: (l ++ '\n' :: joinNlChar (l2 :: ls2)) = c :: cs
          rw [show l ++ '\n' :: joinNlChar (l2 :: ls2) = cs from this]

theorem string_mk_append (a b : List Char) :
    String.mk a ++ String.mk b = String.mk (a ++ b) := rfl

theorem joinNl_map_mk : ∀ ll : List (List Char),
    joinNl (ll.map String.mk) = String.mk (joinNlChar ll)
  | [] => rfl
  | [l] => rfl
  | l :: l2 :: ls => by
    show String.mk l ++ ("\n") ++ joinNl ((l2 :: ls).map String.mk) = _
    rw [joinNl_map_mk (l2 :: ls)]
    show String.mk l ++ String.mk ['\n'] ++ String.mk (joinNlChar (l2 :: ls))
        = String.mk (l ++ '\n' :: joinNlChar (l2 :: ls))
    rw [string_mk_append, string_mk_append]
    have : (l ++ ['\n']) ++ joinNlChar (l2 :: ls) = l ++ '\n' :: joinNlChar (l2 :: ls) := by
      simp
    rw [this]

theorem joinNl_pyLines (s : String) : joinNl (pyLines s) = s := by
  rw [pyLines, joinNl_map_mk, joinNlChar_splitNl]

/-- Erasing the instrumented loop state commutes with one loop step. -/
theorem absC_istep (size : Nat) (st : IState) (line : String) :
    absC (istep size st line) = chunkStep size (absC st) line := by
  show absC (istep size st line) = chunkStep size ⟨_, _, _, _, _⟩ line
  rw [istep, chunkStep]
  by_cases hc : st.currentLen + (line.length + 1) > size
      && !(st.reopen.toList ++ st.body).isEmpty
  · rw [if_pos hc, if_pos hc]
    cases hp : fenceToggle st.inCodeBlock st.codeFence line with
    | mk b f =>
      cases b with
      | true => simp [absC, rend]
      | false => simp [absC, rend]
  · rw [if_neg hc, if_neg hc]
    simp [absC]

theorem absC_foldl (size : Nat) (lines : List String) :
    ∀ st : IState, absC (lines.foldl (istep size) st) = lines.foldl (chunkStep size) (absC st) := by
  induction lines with
  | nil => intro st; rfl
  | cons l lines ih =>
    intro st
    show absC ((lines.foldl (istep size)) (istep size st l)) = _
    rw [ih (istep size st l), absC_istep]
    rfl

theorem chunkFinish_rend (st : IState) :
    (chunkFinish st).map rend
      = (if !(absC st).current.isEmpty
          then (absC st).chunks ++ [joinNl (absC st).current]
          else (absC st).chunks) := by
  rw [chunkFinish]
  dsimp only [absC]
  by_cases hne : (st.reopen.toList ++ st.body).isEmpty
  · have hcond : ¬ ((!(st.reopen.toList ++ st.body).isEmpty) = true) := by
      rw [hne]
      decide
    rw [if_neg hcond, if_neg hcond]
  · have h0 : (st.reopen.toList ++ st.body).isEmpty = false := Bool.eq_false_iff.mpr hne
    have hcond : (!(st.reopen.toList ++ st.body).isEmpty) = true := by
      rw [h0]
      decide
    rw [if_pos hcond, if_pos hcond]
    rw [List.map_append]
    rfl

theorem chunkAnnotated_rend (text : String) (size : Nat) :
    (chunkAnnotated text size).map rend = chunk_markdown text size := by
  rw [chunkAnnotated, chunk_markdown]
  by_cases hle : text.length ≤ size
  · rw [if_pos hle, if_pos hle]
    show [rend ⟨none, pyLines text, false⟩] = [text]
    rw [rend]
    show [joinNl (pyLines text)] = [text]
    rw [joinNl_pyLines]
  · rw [if_neg hle, if_neg hle]
    have habs : absC ((pyLines text).foldl (istep size) initI)
        = (pyLines text).foldl (chunkStep size) ⟨[], [], 0, false, ""⟩ :=
      absC_foldl size (pyLines text) initI
    show (chunkFinish ((pyLines text).foldl (istep size) initI)).map rend
        = (if !((pyLines text).foldl (chunkStep size) ⟨[], [], 0, false, ""⟩).current.isEmpty
            then ((pyLines text).foldl (chunkStep size) ⟨[], [], 0, false, ""⟩).chunks
              ++ [joinNl ((pyLines text).foldl (chunkStep size) ⟨[], [], 0, false, ""⟩).current]
            else ((pyLines text).foldl (chunkStep size) ⟨[], [], 0, false, ""⟩).chunks)
    rw [chunkFinish_rend, habs]

theorem flatBodies_append (xs ys : List AChunk) :
    flatBodies (xs ++ ys) = flatBodies xs ++ flatBodies ys := by
  simp [flatBodies]

theorem flatBodies_chunkFinish (st : IState) :
    flatBodies (chunkFinish st) = flatBodies st.done ++ st.body := by
  rw [chunkFinish]
  by_cases hne : (st.reopen.toList ++ st.body).isEmpty
  · have hcond : ¬ ((!(st.reopen.toList ++ st.body).isEmpty) = true) := by
      rw [hne]
      decide
    rw [if_neg hcond]
    have hbody : st.body = [] := (List.append_eq_nil.mp (List.isEmpty_iff.mp hne)).2
    rw [hbody, List.append_nil]
  · have h0 : (st.reopen.toList ++ st.body).isEmpty = false := Bool.eq_false_iff.mpr hne
    have hcond : (!(st.reopen.toList ++ st.body).isEmpty) = true := by
      rw [h0]
      decide
    rw [if_pos hcond, flatBodies_append]
    show flatBodies st.done ++ (st.body ++ []) = _
    rw [List.append_nil]

theorem bodies_foldl (size : Nat) (lines : List String) :
    ∀ st : IState,
      flatBodies (lines.foldl (istep size) st).done ++ (lines.foldl (istep size) st).body
        = (flatBodies st.done ++ st.body) ++ lines := by
  induction lines with
  | nil => intro st; simp
  | cons l lines ih =>
    intro st
    show flatBodies ((lines.foldl (istep size)) (istep size st l)).done
        ++ ((lines.foldl (istep size)) (istep size st l)).body = _
    rw [ih (istep size st l)]
    have hstep : flatBodies (istep size st l).done ++ (istep size st l).body
        = (flatBodies st.done ++ st.body) ++ [l] := by
      rw [istep]
      by_cases hc : st.currentLen + (l.length + 1) > size
          && !(st.reopen.toList ++ st.body).isEmpty
      · rw [if_pos hc]
        show flatBodies (st.done ++ [⟨st.reopen, st.body, _⟩]) ++ [l] = _
        rw [flatBodies_append]
        show flatBodies st.done ++ (st.body ++ []) ++ [l] = _
        simp
      · rw [if_neg hc]
        show flatBodies st.done ++ (st.body ++ [l]) = _
        simp
    rw [hstep]
    simp

theorem flatBodies_chunkAnnotated (text : String) (size : Nat) :
    flatBodies (chunkAnnotated text size) = pyLines text := by
  rw [chunkAnnotated]
  by_cases hle : text.length ≤ size
  · rw [if_pos hle]
    simp [flatBodies]
  · rw [if_neg hle]
    rw [chunkAnnotatedLines]
    have hb : flatBodies ((pyLines text).foldl (istep size) initI).done
        ++ ((pyLines text).foldl (istep size) initI).body = pyLines text := by
      have h := bodies_foldl size (pyLines text) initI
      rw [show (flatBodies initI.done ++ initI.body) = ([] : List String) from rfl] at h
      rw [List.nil_append] at h
      exact h
    show flatBodies (chunkFinish ((pyLines text).foldl (istep size) initI)) = pyLines text
    rw [flatBodies_chunkFinish]
    exact hb

/-- Claim C4: for every text and chunk size, the annotated chunk list of
`chunk_markdown` erases to the actual output, and stripping the injected
reopening and closing fences leaves chunk bodies that concatenate to
exactly the original line sequence; moreover any text whose length fits
the size budget is returned as a single, unchanged chunk. -/
theorem spec_c4_chunk_roundtrip :
    (∀ text size, flatBodies (chunkAnnotated text size) = pyLines text
      ∧ (chunkAnnotated text size).map rend = chunk_markdown text size)
    ∧ (∀ text size, text.length ≤ size → chunk_markdown text size = [text]) := by
  refine ⟨fun text size => ⟨flatBodies_chunkAnnotated text size, chunkAnnotated_rend text size⟩,
    fun text size h => ?_⟩
  rw [chunk_markdown, if_pos h]

/-- Witness for C4: a short text is returned unchanged. -/
theorem spec_c4_witness : chunk_markdown ("hi") 10 = [("hi")] :=
  spec_c4_chunk_roundtrip.2 ("hi") 10 (by decide)

/-! ## Fence closing and reopening at chunk boundaries (C5) -/

/-- Claim C5 counterexample: with size 10 and a fenced block whose closing
fence line triggers the break, the middle chunk continues the block (one
unmatched fence-marker line) but is emitted without an appended closing
fence - because the tracker was already toggled outside the block by the
incoming closing-fence line before the size check ran. -/
theorem spec_c5_counterexample :
    chunk_markdown ("```\nabcdefg\n```") 10 = [("```\n```"), ("```\nabcdefg"), ("```")]
    ∧ chunkAnnotated ("```\nabcdefg\n```") 10
        = [⟨none, [("```")], true⟩, ⟨some ("```"), [("abcdefg")], false⟩, ⟨none, [("```")], false⟩]
    ∧ fenceLineCount ("```\nabcdefg") % 2 = 1
    ∧ ¬ (("```").data <:+ ("```\nabcdefg").data) := by
  refine ⟨by decide, by decide, by decide, by decide⟩

theorem fenceAfter_append (p : Bool × String) (xs ys : List String) :
    fenceAfter p (xs ++ ys) = fenceAfter (fenceAfter p xs) ys := by
  simp [fenceAfter, List.foldl_append]

theorem fenceAfter_singleton (p : Bool × String) (l : String) :
    fenceAfter p [l] = fenceToggle p.1 p.2 l := rfl

theorem fenceToggle_snd {b : Bool} {f : String} (l : String) (hf : b = true → f = ("```"))
    (h1 : (fenceToggle b f l).1 = true) : (fenceToggle b f l).2 = ("```") := by
  by_cases ht : tickStart l
  · cases b with
    | false => simp [fenceToggle, ht]
    | true => simp [fenceToggle, ht] at h1
  · cases b with
    | false => simp [fenceToggle, ht] at h1
    | true =>
      simp [fenceToggle, ht]
      exact hf rfl

theorem chainMid_snoc : ∀ (p0 : Bool × String) (done : List AChunk) (body : List String)
    (r : Option String) (l : String) (b2 : Bool) (r' : Option String),
    ChainMid p0 done body r →
    b2 = (fenceToggle (fenceAfter p0 (flatBodies done ++ body)).1
        (fenceAfter p0 (flatBodies done ++ body)).2 l).1 →
    r'.isSome = b2 →
    ChainMid p0 (done ++ [⟨r, body, b2⟩]) [l] r'
  | p0, [], body, r, l, b2, r', _, hb2, hr' => by
    show ChainMid p0 [⟨r, body, b2⟩] [l] r'
    refine ⟨?_, hr'⟩
    show b2 = (fenceToggle (fenceAfter p0 body).1 (fenceAfter p0 body).2 (([l]).headD (""))).1
    simpa [flatBodies] using hb2
  | p0, [c], body, r, l, b2, r', hch, hb2, hr' => by
    obtain ⟨h1, h2⟩ := hch
    show ChainMid p0 (c :: [⟨r, body, b2⟩]) [l] r'
    refine ⟨h1, h2, ?_, hr'⟩
    show b2 = (fenceToggle (fenceAfter (fenceAfter p0 c.body) body).1
        (fenceAfter (fenceAfter p0 c.body) body).2 (([l]).headD (""))).1
    rw [hb2]
    rw [show flatBodies [c] ++ body = c.body ++ body from by simp [flatBodies]]
    rw [fenceAfter_append]
    rfl
  | p0, c :: c2 :: rest, body, r, l, b2, r', hch, hb2, hr' => by
    obtain ⟨h1, h2, h3⟩ := hch
    show ChainMid p0 (c :: ((c2 :: rest) ++ [⟨r, body, b2⟩])) [l] r'
    refine ⟨h1, h2, ?_⟩
    apply chainMid_snoc (fenceAfter p0 c.body) (c2 :: rest) body r l b2 r' h3 ?_ hr'
    rw [hb2]
    rw [show flatBodies (c :: c2 :: rest) ++ body
        = c.body ++ (flatBodies (c2 :: rest) ++ body) from by simp [flatBodies]]
    rw [fenceAfter_append]

theorem chainMid_extend : ∀ (p0 : Bool × String) (done : List AChunk) (body : List String)
    (r : Option String) (l : String),
    ChainMid p0 done body r → (done = [] ∨ body ≠ []) →
    ChainMid p0 done (body ++ [l]) r
  | _, [], _, _, _, hch, _ => hch
  | p0, [c], body, r, l, hch, hne => by
    obtain ⟨h1, h2⟩ := hch
    have hb : body ≠ [] := by
      cases hne with
      | inl h => exact absurd h (by simp)
      | inr h => exact h
    refine ⟨?_, h2⟩
    have hhd : (body ++ [l]).headD ("") = body.headD ("") := by
      cases body with
      | nil => exact absurd rfl hb
      | cons b bs => rfl
    rw [hhd]
    exact h1
  | p0, c :: c2 :: rest, body, r, l, hch, hne => by
    obtain ⟨h1, h2, h3⟩ := hch
    have hb : body ≠ [] := by
      cases hne with
      | inl h => simp at h
      | inr h => exact h
    exact ⟨h1, h2, chainMid_extend (fenceAfter p0 c.body) (c2 :: rest) body r l h3 (Or.inr hb)⟩

theorem annOK_snoc : ∀ (p0 : Bool × String) (done : List AChunk) (body : List String)
    (r : Option String), ChainMid p0 done body r → annOK p0 (done ++ [⟨r, body, false⟩])
  | p0, [], body, r, _ => by
    show annOK p0 [⟨r, body, false⟩]
    rfl
  | p0, [c], body, r, hch => by
    obtain ⟨h1, h2⟩ := hch
    exact ⟨h1, h2, rfl⟩
  | p0, c :: c2 :: rest, body, r, hch => by
    obtain ⟨h1, h2, h3⟩ := hch
    exact ⟨h1, h2, annOK_snoc (fenceAfter p0 c.body) (c2 :: rest) body r h3⟩

theorem midInv_init : MidInv initI := by
  refine ⟨rfl, by intro h; exact absurd h (by decide), rfl, ?_, ?_, ?_, Or.inl rfl, rfl⟩
  · intro h
    exact absurd rfl h
  · intro c hc
    simp [initI] at hc
  · intro c hc
    simp [initI] at hc

theorem midInv_istep (size : Nat) (st : IState) (l : String) (hinv : MidInv st) :
    MidInv (istep size st l) := by
  have htr : fenceToggle st.inCodeBlock st.codeFence l
      = fenceToggle (fenceAfter (false, "") (flatBodies st.done ++ st.body)).1
          (fenceAfter (false, "") (flatBodies st.done ++ st.body)).2 l := by
    rw [← hinv.tracker]
  rw [istep]
  by_cases hc : st.currentLen + (l.length + 1) > size
      && !(st.reopen.toList ++ st.body).isEmpty
  · rw [if_pos hc]
    have hreopennil : st.done = [] → st.reopen = none := by
      intro hdone
      have := hinv.headReopen
      rw [hdone] at this
      exact this
    have hbodyne : st.body ≠ [] := by
      cases hdone : st.done with
      | nil =>
        have hrn := hreopennil hdone
        have hne := (Bool.and_eq_true ..).mp hc |>.2
        simp only [hrn, Option.toList_none, List.nil_append, Bool.not_eq_true'] at hne
        exact fun hb => by
          rw [hb] at hne
          simp at hne
      | cons c0 cs => exact hinv.bodyNe (by rw [hdone]; simp)
    have hflat : flatBodies (st.done ++ [⟨st.reopen, st.body, (fenceToggle st.inCodeBlock st.codeFence l).1⟩])
        = flatBodies st.done ++ st.body := by
      rw [flatBodies_append]
      simp [flatBodies]
    refine ⟨?_, ?_, ?_, ?_, ?_, ?_, ?_, ?_⟩
    · show ((fenceToggle st.inCodeBlock st.codeFence l).1,
          (fenceToggle st.inCodeBlock st.codeFence l).2)
        = fenceAfter (false, "") (flatBodies (st.done ++ [_]) ++ [l])
      rw [hflat, fenceAfter_append, fenceAfter_singleton, ← htr]
    · show (fenceToggle st.inCodeBlock st.codeFence l).1 = true →
          (fenceToggle st.inCodeBlock st.codeFence l).2 = ("```")
      exact fenceToggle_snd l hinv.fenceStr
    · show (match st.done ++ [(⟨st.reopen, st.body,
          (fenceToggle st.inCodeBlock st.codeFence l).1⟩ : AChunk)] with
        | [] => if (fenceToggle st.inCodeBlock st.codeFence l).1
            then some (fenceToggle st.inCodeBlock st.codeFence l).2 else none
        | c :: _ => c.reopen) = none
      cases hdone : st.done with
      | nil =>
        show (⟨st.reopen, st.body, _⟩ : AChunk).reopen = none
        exact hreopennil hdone
      | cons c0 cs =>
        show c0.reopen = none
        have := hinv.headReopen
        rw [hdone] at this
        exact this
    · intro _
      simp
    · intro c hcmem
      rw [List.mem_append] at hcmem
      cases hcmem with
      | inl h => exact hinv.doneBody c h
      | inr h =>
        simp only [List.mem_singleton] at h
        subst h
        exact hbodyne
    · intro c hcmem
      rw [List.mem_append] at hcmem
      cases hcmem with
      | inl h => exact hinv.doneReopen c h
      | inr h =>
        simp only [List.mem_singleton] at h
        subst h
        exact hinv.reopenCur
    · show (if (fenceToggle st.inCodeBlock st.codeFence l).1
          then some (fenceToggle st.inCodeBlock st.codeFence l).2 else none) = none
        ∨ (if (fenceToggle st.inCodeBlock st.codeFence l).1
          then some (fenceToggle st.inCodeBlock st.codeFence l).2 else none) = some ("```")
      by_cases hp1 : (fenceToggle st.inCodeBlock st.codeFence l).1 = true
      · right
        rw [if_pos hp1, fenceToggle_snd l hinv.fenceStr hp1]
      · left
        rw [if_neg hp1]
    · show ChainMid (false, "") (st.done ++ [⟨st.reopen, st.body,
          (fenceToggle st.inCodeBlock st.codeFence l).1⟩]) [l]
        (if (fenceToggle st.inCodeBlock st.codeFence l).1
          then some (fenceToggle st.inCodeBlock st.codeFence l).2 else none)
      apply chainMid_snoc (false, "") st.done st.body st.reopen l _ _ hinv.chain
      · rw [← htr]
      · by_cases hp1 : (fenceToggle st.inCodeBlock st.codeFence l).1 = true
        · rw [if_pos hp1, hp1]
          rfl
        · rw [if_neg hp1]
          simp only [Option.isSome_none]
          exact (Bool.eq_false_iff.mpr hp1).symm
  · rw [if_neg hc]
    refine ⟨?_, ?_, ?_, ?_, ?_, ?_, ?_, ?_⟩
    · show ((fenceToggle st.inCodeBlock st.codeFence l).1,
          (fenceToggle st.inCodeBlock st.codeFence l).2)
        = fenceAfter (false, "") (flatBodies st.done ++ (st.body ++ [l]))
      rw [← List.append_assoc, fenceAfter_append, fenceAfter_singleton, ← htr]
    · exact fenceToggle_snd l hinv.fenceStr
    · exact hinv.headReopen
    · intro _
      simp
    · exact hinv.doneBody
    · exact hinv.doneReopen
    · exact hinv.reopenCur
    · show ChainMid (false, "") st.done (st.body ++ [l]) st.reopen
      apply chainMid_extend (false, "") st.done st.body st.reopen l hinv.chain
      cases hdone : st.done with
      | nil => exact Or.inl rfl
      | cons c0 cs => exact Or.inr (hinv.bodyNe (by rw [hdone]; simp))

theorem midInv_foldl (size : Nat) (lines : List String) :
    ∀ st : IState, MidInv st → MidInv (lines.foldl (istep size) st) := by
  induction lines with
  | nil => intro st h; exact h
  | cons l lines ih =>
    intro st h
    exact ih (istep size st l) (midInv_istep size st l h)

theorem string_data_append (a b : String) : (a ++ b).data = a.data ++ b.data := rfl

/-- A chunk flagged closed renders with the appended closing fence as its
final line. -/
theorem rend_closed_suffix (c : AChunk) (h : c.closed = true) :
    ("```").data <:+ (rend c).data := by
  show ("```").data <:+ (if c.closed = true
      then (joinNl (c.reopen.toList ++ c.body)) ++ ("\n```")
      else joinNl (c.reopen.toList ++ c.body)).data
  rw [if_pos h]
  refine ⟨(joinNl (c.reopen.toList ++ c.body)).data ++ ['\n'], ?_⟩
  rw [string_data_append, List.append_assoc]
  congr 1

/-- A chunk carrying a reopening fence renders with that fence as its
first line. -/
theorem rend_reopen_prefix (c : AChunk) (h : c.reopen = some ("```")) (hb : c.body ≠ []) :
    ("```").data <+: (rend c).data := by
  obtain ⟨b0, bs, hcb⟩ : ∃ b0 bs, c.body = b0 :: bs := by
    cases hcb : c.body with
    | nil => exact absurd hcb hb
    | cons b0 bs => exact ⟨b0, bs, rfl⟩
  have hbase : ("```").data <+: (joinNl (c.reopen.toList ++ c.body)).data := by
    rw [h, hcb]
    show ("```").data <+: (joinNl (("```") :: b0 :: bs)).data
    show ("```").data <+: ((("```") ++ ("\n")) ++ joinNl (b0 :: bs)).data
    rw [string_data_append, string_data_append, List.append_assoc]
    exact ⟨("\n").data ++ (joinNl (b0 :: bs)).data, rfl⟩
  show ("```").data <+: (if c.closed = true
      then (joinNl (c.reopen.toList ++ c.body)) ++ ("\n```")
      else joinNl (c.reopen.toList ++ c.body)).data
  by_cases hcl : c.closed = true
  · rw [if_pos hcl, string_data_append]
    exact hbase.trans (List.prefix_append _ _)
  · rw [if_neg hcl]
    exact hbase

/-- The shape facts needed about every chunk produced by the annotated
algorithm: its reopening fence line, when present, is a triple backtick
and its body is non-empty. -/
theorem chunkAnnotated_shape (text : String) (size : Nat) :
    ∀ c ∈ chunkAnnotated text size,
      (c.reopen = none ∨ c.reopen = some ("```")) ∧ (c.reopen.isSome = true → c.body ≠ []) := by
  intro c hc
  rw [chunkAnnotated] at hc
  by_cases hle : text.length ≤ size
  · rw [if_pos hle] at hc
    simp only [List.mem_singleton] at hc
    subst hc
    exact ⟨Or.inl rfl, by intro h; simp at h⟩
  · rw [if_neg hle] at hc
    have hinv := midInv_foldl size (pyLines text) initI midInv_init
    rw [chunkAnnotatedLines, chunkFinish] at hc
    by_cases hne : !(((pyLines text).foldl (istep size) initI).reopen.toList
        ++ ((pyLines text).foldl (istep size) initI).body).isEmpty
    · rw [if_pos hne] at hc
      rw [List.mem_append] at hc
      cases hc with
      | inl h =>
        exact ⟨hinv.doneReopen c h, fun _ => hinv.doneBody c h⟩
      | inr h =>
        simp only [List.mem_singleton] at h
        subst h
        refine ⟨hinv.reopenCur, ?_⟩
        intro hsome
        apply hinv.bodyNe
        intro hdone
        have h0 := hinv.headReopen
        rw [hdone] at h0
        have hrn : ((pyLines text).foldl (istep size) initI).reopen = none := h0
        simp [hrn] at hsome
    · rw [if_neg hne] at hc
      exact ⟨hinv.doneReopen c hc, fun _ => hinv.doneBody c hc⟩

/-- Claim C5 (amended): a chunk emitted at a budget break is closed with
an appended closing fence exactly when the fence tracker - which has
already consumed the incoming line that triggered the break - reports
inside a code block, and the following chunk begins with a reopening
fence exactly when the previous one was closed (`annOK`); the first chunk
never reopens, the final chunk is never closed; a closed chunk really
ends in a fence line and a reopening chunk really starts with one; and
the annotated chunks erase to the actual `chunk_markdown` output.  In
particular, when the break is triggered by the block's own closing-fence
line the tracker is already outside the block, so that chunk is emitted
with its opening fence unmatched. -/
theorem spec_c5_fence_discipline (text : String) (size : Nat) :
    annOK (false, "") (chunkAnnotated text size)
    ∧ ((chunkAnnotated text size).head?.elim True (fun c => c.reopen = none))
    ∧ (∀ c ∈ chunkAnnotated text size,
        (c.closed = true → ("```").data <:+ (rend c).data)
        ∧ (c.reopen.isSome = true →
            c.reopen = some ("```") ∧ ("```").data <+: (rend c).data))
    ∧ (chunkAnnotated text size).map rend = chunk_markdown text size := by
  refine ⟨?_, ?_, ?_, chunkAnnotated_rend text size⟩
  · rw [chunkAnnotated]
    by_cases hle : text.length ≤ size
    · rw [if_pos hle]
      show (false : Bool) = false
      rfl
    · rw [if_neg hle]
      have hinv := midInv_foldl size (pyLines text) initI midInv_init
      rw [chunkAnnotatedLines, chunkFinish]
      by_cases hne : !(((pyLines text).foldl (istep size) initI).reopen.toList
          ++ ((pyLines text).foldl (istep size) initI).body).isEmpty
      · rw [if_pos hne]
        exact annOK_snoc (false, "")
          ((pyLines text).foldl (istep size) initI).done
          ((pyLines text).foldl (istep size) initI).body
          ((pyLines text).foldl (istep size) initI).reopen hinv.chain
      · rw [if_neg hne]
        -- the running chunk is empty, so nothing was ever emitted
        have hemp : (((pyLines text).foldl (istep size) initI).reopen.toList
            ++ ((pyLines text).foldl (istep size) initI).body).isEmpty = true := by
          cases hb : (((pyLines text).foldl (istep size) initI).reopen.toList
              ++ ((pyLines text).foldl (istep size) initI).body).isEmpty with
          | true => rfl
          | false => rw [hb] at hne; exact absurd rfl hne
        have hbody : ((pyLines text).foldl (istep size) initI).body = [] :=
          (List.append_eq_nil.mp (List.isEmpty_iff.mp hemp)).2
        have hdone : ((pyLines text).foldl (istep size) initI).done = [] := by
          by_cases hd : ((pyLines text).foldl (istep size) initI).done = []
          · exact hd
          · exact absurd hbody (hinv.bodyNe hd)
        rw [hdone]
        trivial
  · rw [chunkAnnotated]
    by_cases hle : text.length ≤ size
    · rw [if_pos hle]
      show (none : Option String) = none
      rfl
    · rw [if_neg hle]
      have hinv := midInv_foldl size (pyLines text) initI midInv_init
      rw [chunkAnnotatedLines, chunkFinish]
      by_cases hne : !(((pyLines text).foldl (istep size) initI).reopen.toList
          ++ ((pyLines text).foldl (istep size) initI).body).isEmpty
      · rw [if_pos hne]
        cases hdone : ((pyLines text).foldl (istep size) initI).done with
        | nil =>
          show ((pyLines text).foldl (istep size) initI).reopen = none
          have := hinv.headReopen
          rw [hdone] at this
          exact this
        | cons c0 cs =>
          show c0.reopen = none
          have := hinv.headReopen
          rw [hdone] at this
          exact this
      · rw [if_neg hne]
        cases hdone : ((pyLines text).foldl (istep size) initI).done with
        | nil => trivial
        | cons c0 cs =>
          show c0.reopen = none
          have := hinv.headReopen
          rw [hdone] at this
          exact this
  · intro c hc
    have hshape := chunkAnnotated_shape text size c hc
    refine ⟨rend_closed_suffix c, ?_⟩
    intro hsome
    have hre : c.reopen = some ("```") := by
      cases hshape.1 with
      | inl h => rw [h] at hsome; exact absurd hsome (by decide)
      | inr h => exact h
    exact ⟨hre, rend_reopen_prefix c hre (hshape.2 hsome)⟩

/-- Witness for C5: the closing fence appended to the first chunk of the
counterexample text, and the reopening fence on the second. -/
theorem spec_c5_witness :
    (("```").data <:+ (rend ⟨none, [("```")], true⟩).data)
    ∧ (("```").data <+: (rend ⟨some ("```"), [("abcdefg")], false⟩).data) :=
  ⟨((spec_c5_fence_discipline ("```\nabcdefg\n```") 10).2.2.1
      ⟨none, [("```")], true⟩ (by decide)).1 rfl,
   (((spec_c5_fence_discipline ("```\nabcdefg\n```") 10).2.2.1
      ⟨some ("```"), [("abcdefg")], false⟩ (by decide)).2 rfl).2⟩

end DM
